import Mathlib

/-!
Verification of the core of the BHA racing-data scraper
(`src/scraper/step1_fixtures.py`) against its specification.

The development shallowly embeds the Python source:

* `generateDailyDateStrings` embeds `_generate_daily_date_strings`, on top of a
  model of `datetime.fromisoformat` / `datetime.strftime` / `timedelta(days=1)`
  restricted to the grammar fragment the scraper exercises (dates with an
  optional `HH[:MM[:SS]]` time part after a one-character separator; no
  fractional seconds, no timezone offsets).  `strftime` with `%Y` does not
  zero-pad the year on the platform the scraper targets (glibc), and adding one
  day to 9999-12-31 raises `OverflowError`; both behaviours are modelled.
* `loadFileFromCache` / `saveToCache` embed the response cache, on top of a
  model of `json.dump` / `json.load` (`pyDumps` / `pyLoads`).  JSON values are
  restricted to null, booleans, integers, strings, arrays and objects (floats
  are out of scope); `ensure_ascii` escaping of characters above 0x7e is folded
  away (those characters are written literally here), which does not affect any
  cache-level statement because `json.load` decodes the escapes back to the
  same characters.
* `TokenCapture.handle_request` is embedded as `handleRequest`; the two helper
  bodies that are empty stubs in the source are modelled from the spec and
  marked as such.
* `_fetch_json_payload`, whose body is an empty stub in the source, is
  modelled from the spec (section 4.4) and marked as such.
-/

/-! ## Decimal digits -/

/-- The decimal digit character for `n % 10`. -/
def decChar (n : Nat) : Char :=
  match n % 10 with
  | 0 => '0' | 1 => '1' | 2 => '2' | 3 => '3' | 4 => '4'
  | 5 => '5' | 6 => '6' | 7 => '7' | 8 => '8' | _ => '9'

/-- Whether a character is a decimal digit (code points 48..57). -/
def isDigChar (c : Char) : Bool := 48 ≤ c.toNat && c.toNat ≤ 57

/-- Decimal digit characters of `n`, most significant first, structurally
recursive on a fuel bound so the kernel can evaluate it (`natDigs` below
passes `n` itself, which is always enough fuel). -/
def natDigsF (fuel n : Nat) : List Char :=
  match fuel with
  | 0 => [decChar n]
  | f + 1 => if n < 10 then [decChar n] else natDigsF f (n / 10) ++ [decChar (n % 10)]

/-- Decimal digit characters of `n`, most significant first. -/
def natDigs (n : Nat) : List Char := natDigsF n n

/-- The number a list of digit characters denotes (most significant first). -/
def digsVal (ds : List Char) : Nat :=
  ds.foldl (fun a c => 10 * a + (c.toNat - 48)) 0

theorem decChar_isDig (n : Nat) : isDigChar (decChar n) = true := by
  unfold decChar
  have : n % 10 < 10 := Nat.mod_lt _ (by omega)
  interval_cases h : n % 10 <;> simp only [h] <;> decide

theorem decChar_toNat (n : Nat) : (decChar n).toNat = 48 + n % 10 := by
  unfold decChar
  have : n % 10 < 10 := Nat.mod_lt _ (by omega)
  interval_cases h : n % 10 <;> simp only [h] <;> decide

theorem natDigsF_congr (f1 : Nat) : ∀ f2 n, n ≤ f1 → n ≤ f2 →
    natDigsF f1 n = natDigsF f2 n := by
  induction f1 with
  | zero =>
    intro f2 n h1 h2
    have hn : n = 0 := by omega
    subst hn
    cases f2 <;> simp [natDigsF]
  | succ f ih =>
    intro f2 n h1 h2
    by_cases hn : n < 10
    · cases f2 <;> simp [natDigsF, hn]
    · have h0 : (0 : Nat) ≠ n := by omega
      cases f2 with
      | zero => omega
      | succ f2' =>
        simp only [natDigsF, if_neg hn]
        rw [ih f2' (n / 10) (by omega) (by omega)]

/-- The one-step unfolding that the proofs below recurse with. -/
theorem natDigs_eq (n : Nat) :
    natDigs n = if n < 10 then [decChar n] else natDigs (n / 10) ++ [decChar (n % 10)] := by
  unfold natDigs
  by_cases hn : n < 10
  · cases n <;> simp [natDigsF, hn]
  · obtain ⟨m, rfl⟩ : ∃ m, n = m + 1 := ⟨n - 1, by omega⟩
    simp only [natDigsF, if_neg hn]
    rw [natDigsF_congr m ((m + 1) / 10) ((m + 1) / 10) (by omega) (by omega)]

theorem natDigs_ne_nil (n : Nat) : natDigs n ≠ [] := by
  rw [natDigs_eq]
  split <;> simp

theorem natDigs_digits (n : Nat) : ∀ c ∈ natDigs n, isDigChar c = true := by
  induction n using Nat.strong_induction_on with
  | _ n ih =>
    rw [natDigs_eq]
    split
    · intro c hc
      simp only [List.mem_singleton] at hc
      subst hc; exact decChar_isDig n
    · intro c hc
      rcases List.mem_append.mp hc with h | h
      · exact ih (n / 10) (by omega) c h
      · simp only [List.mem_singleton] at h
        subst h; exact decChar_isDig _

theorem digsVal_append (xs : List Char) (c : Char) :
    digsVal (xs ++ [c]) = 10 * digsVal xs + (c.toNat - 48) := by
  unfold digsVal
  rw [List.foldl_append]
  rfl

theorem digsVal_natDigs (n : Nat) : digsVal (natDigs n) = n := by
  induction n using Nat.strong_induction_on with
  | _ n ih =>
    rw [natDigs_eq]
    split
    · simp only [digsVal, List.foldl_cons, List.foldl_nil, decChar_toNat]
      omega
    · rw [digsVal_append, ih (n / 10) (by omega), decChar_toNat]
      omega

theorem natDigs_inj (a b : Nat) (h : natDigs a = natDigs b) : a = b := by
  have ha := digsVal_natDigs a
  have hb := digsVal_natDigs b
  rw [h] at ha
  omega

/-! ## The Python `datetime` model

Naive `datetime` values as the scraper uses them: a proleptic-Gregorian
calendar date plus a time of day in whole seconds (`fromisoformat` without
fractional seconds never produces sub-second precision).  Python restricts
years to 1..9999. -/

structure PyDateTime where
  year : Nat
  month : Nat
  day : Nat
  /-- Seconds past midnight. -/
  tod : Nat
  deriving DecidableEq, Repr

/-- Gregorian leap-year test, as `calendar.isleap` / `datetime` use it. -/
def isLeapYear (y : Nat) : Bool :=
  (y % 4 == 0 && y % 100 != 0) || y % 400 == 0

/-- One when `y` is a leap year, zero otherwise. -/
def leapBit (y : Nat) : Nat := if isLeapYear y then 1 else 0

/-- Days in a month of a given year (0 for a month outside 1..12). -/
def daysInMonth (y m : Nat) : Nat :=
  match m with
  | 1 => 31 | 2 => 28 + leapBit y | 3 => 31 | 4 => 30 | 5 => 31 | 6 => 30
  | 7 => 31 | 8 => 31 | 9 => 30 | 10 => 31 | 11 => 30 | 12 => 31
  | _ => 0

/-- Days in year `y` that precede month `m`. -/
def cumDays (y m : Nat) : Nat :=
  match m with
  | 1 => 0
  | 2 => 31
  | 3 => 59 + leapBit y
  | 4 => 90 + leapBit y
  | 5 => 120 + leapBit y
  | 6 => 151 + leapBit y
  | 7 => 181 + leapBit y
  | 8 => 212 + leapBit y
  | 9 => 243 + leapBit y
  | 10 => 273 + leapBit y
  | 11 => 304 + leapBit y
  | 12 => 334 + leapBit y
  | _ => 0

/-- Leap years strictly before year `y`. -/
def leapsBefore (y : Nat) : Nat := (y - 1) / 4 - (y - 1) / 100 + (y - 1) / 400

/-- Proleptic-Gregorian day number of the date part, as `date.toordinal`
(0001-01-01 is day 1). -/
def ordinal (t : PyDateTime) : Nat :=
  365 * (t.year - 1) + leapsBefore t.year + cumDays t.year t.month + t.day

/-- A `datetime` value Python can represent. -/
def validDT (t : PyDateTime) : Prop :=
  1 ≤ t.year ∧ t.year ≤ 9999 ∧ 1 ≤ t.month ∧ t.month ≤ 12 ∧
    1 ≤ t.day ∧ t.day ≤ daysInMonth t.year t.month ∧ t.tod < 86400

instance (t : PyDateTime) : Decidable (validDT t) := by
  unfold validDT; infer_instance

/-- Strict comparison of naive `datetime` values (field-lexicographic, as in
CPython). -/
def dtLt (a b : PyDateTime) : Prop :=
  a.year < b.year ∨ (a.year = b.year ∧
    (a.month < b.month ∨ (a.month = b.month ∧
      (a.day < b.day ∨ (a.day = b.day ∧ a.tod < b.tod)))))

instance (a b : PyDateTime) : Decidable (dtLt a b) := by
  unfold dtLt; infer_instance

/-- Non-strict comparison of naive `datetime` values. -/
def dtLe (a b : PyDateTime) : Prop := dtLt a b ∨ a = b

instance (a b : PyDateTime) : Decidable (dtLe a b) := by
  unfold dtLe; infer_instance

/-- The last representable date, `datetime.max`'s date part: adding one day to
it raises `OverflowError`. -/
def isLastDay (t : PyDateTime) : Prop :=
  t.year = 9999 ∧ t.month = 12 ∧ t.day = 31

instance (t : PyDateTime) : Decidable (isLastDay t) := by
  unfold isLastDay; infer_instance

/-- The effect of `+ timedelta(days=1)` on the calendar fields (the time of day
is unchanged).  Defined totally; the embedding only applies it below the
representable maximum, where Python does not overflow. -/
def nextDay (t : PyDateTime) : PyDateTime :=
  if t.day < daysInMonth t.year t.month then
    { t with day := t.day + 1 }
  else if t.month < 12 then
    { t with month := t.month + 1, day := 1 }
  else
    { year := t.year + 1, month := 1, day := 1, tod := t.tod }

/-! ## Calendar arithmetic -/

theorem isLeapYear_iff (y : Nat) :
    isLeapYear y = true ↔ ((y % 4 = 0 ∧ y % 100 ≠ 0) ∨ y % 400 = 0) := by
  simp [isLeapYear]

theorem leapBit_le_one (y : Nat) : leapBit y ≤ 1 := by
  unfold leapBit; split <;> omega

theorem leapsBefore_succ (y : Nat) (hy : 1 ≤ y) :
    leapsBefore (y + 1) = leapsBefore y + leapBit y := by
  unfold leapsBefore leapBit
  split <;> rename_i h <;> rw [isLeapYear_iff] at h <;> omega

theorem cumDays_succ (y m : Nat) (h1 : 1 ≤ m) (h2 : m ≤ 11) :
    cumDays y (m + 1) = cumDays y m + daysInMonth y m := by
  interval_cases m <;> simp [cumDays, daysInMonth] <;> omega

theorem daysInMonth_pos (y m : Nat) (h1 : 1 ≤ m) (h2 : m ≤ 12) :
    1 ≤ daysInMonth y m := by
  interval_cases m <;> simp [daysInMonth] <;> omega

theorem cumDays_add_le (y m : Nat) (h1 : 1 ≤ m) (h2 : m ≤ 12) :
    cumDays y m + daysInMonth y m ≤ 365 + leapBit y := by
  interval_cases m <;> simp [cumDays, daysInMonth] <;> omega

theorem cumDays_mono_add (y m m' : Nat) (h1 : 1 ≤ m) (h : m < m') (h2 : m' ≤ 12) :
    cumDays y m + daysInMonth y m ≤ cumDays y m' := by
  have hm11 : m ≤ 11 := by omega
  interval_cases m <;> interval_cases m' <;> simp [cumDays, daysInMonth] <;> omega

theorem yearStart_mono (y y' : Nat) (h1 : 1 ≤ y) (h : y ≤ y') :
    365 * (y - 1) + leapsBefore y ≤ 365 * (y' - 1) + leapsBefore y' := by
  induction y', h using Nat.le_induction with
  | base => exact le_refl _
  | succ n hn ih =>
      have hs := leapsBefore_succ n (by omega)
      omega

theorem ordinal_lt_of_dateLt (a b : PyDateTime) (ha : validDT a) (hb : validDT b)
    (h : a.year < b.year ∨ (a.year = b.year ∧ (a.month < b.month ∨
          (a.month = b.month ∧ a.day < b.day)))) :
    ordinal a < ordinal b := by
  obtain ⟨y1, m1, d1, s1⟩ := a
  obtain ⟨y2, m2, d2, s2⟩ := b
  obtain ⟨ha1, ha2, ha3, ha4, ha5, ha6, ha7⟩ := ha
  obtain ⟨hb1, hb2, hb3, hb4, hb5, hb6, hb7⟩ := hb
  simp only [] at *
  rcases h with hy | ⟨hy, hm | ⟨hm, hd⟩⟩
  · have e1 : cumDays y1 m1 + d1 ≤ 365 + leapBit y1 := by
      have := cumDays_add_le y1 m1 ha3 ha4
      omega
    have e2 := leapsBefore_succ y1 ha1
    have e3 := yearStart_mono (y1 + 1) y2 (by omega) (by omega)
    simp only [ordinal]
    omega
  · subst hy
    have e1 : cumDays y1 m1 + d1 ≤ cumDays y1 m2 := by
      have := cumDays_mono_add y1 m1 m2 ha3 hm hb4
      omega
    simp only [ordinal]
    omega
  · subst hy
    subst hm
    simp only [ordinal]
    omega

theorem dt_trichotomy (a b : PyDateTime) : dtLt a b ∨ a = b ∨ dtLt b a := by
  obtain ⟨y1, m1, d1, s1⟩ := a
  obtain ⟨y2, m2, d2, s2⟩ := b
  simp only [dtLt, PyDateTime.mk.injEq]
  omega

theorem ordinal_lt_of_dtLt (a b : PyDateTime) (ha : validDT a) (hb : validDT b)
    (htod : a.tod = b.tod) (h : dtLt a b) : ordinal a < ordinal b := by
  apply ordinal_lt_of_dateLt a b ha hb
  rcases h with h | ⟨e1, h | ⟨e2, h | ⟨e3, h⟩⟩⟩
  · exact Or.inl h
  · exact Or.inr ⟨e1, Or.inl h⟩
  · exact Or.inr ⟨e1, Or.inr ⟨e2, h⟩⟩
  · omega

theorem dtLe_iff_ordinal (a b : PyDateTime) (ha : validDT a) (hb : validDT b)
    (htod : a.tod = b.tod) : dtLe a b ↔ ordinal a ≤ ordinal b := by
  constructor
  · intro h
    rcases h with h | rfl
    · exact Nat.le_of_lt (ordinal_lt_of_dtLt a b ha hb htod h)
    · exact Nat.le_refl _
  · intro h
    rcases dt_trichotomy a b with h1 | h1 | h1
    · exact Or.inl h1
    · exact Or.inr h1
    · have := ordinal_lt_of_dtLt b a hb ha htod.symm h1
      omega

theorem dt_eq_of_ordinal (a b : PyDateTime) (ha : validDT a) (hb : validDT b)
    (htod : a.tod = b.tod) (h : ordinal a = ordinal b) : a = b := by
  rcases dt_trichotomy a b with h1 | h1 | h1
  · have := ordinal_lt_of_dtLt a b ha hb htod h1
    omega
  · exact h1
  · have := ordinal_lt_of_dtLt b a hb ha htod.symm h1
    omega

theorem ordinal_le_max (t : PyDateTime) (h : validDT t) : ordinal t ≤ 3652059 := by
  have hmax : validDT ⟨9999, 12, 31, 0⟩ := by decide
  by_cases hl : t.year = 9999 ∧ t.month = 12 ∧ t.day = 31
  · obtain ⟨e1, e2, e3⟩ := hl
    have : ordinal t = 3652059 := by
      unfold ordinal
      rw [e1, e2, e3]
      decide
    omega
  · have hlt : ordinal t < ordinal ⟨9999, 12, 31, 0⟩ := by
      apply ordinal_lt_of_dateLt t _ h hmax
      obtain ⟨h1, h2, h3, h4, h5, h6, h7⟩ := h
      simp only []
      by_cases hy : t.year = 9999
      · by_cases hm : t.month = 12
        · have : t.day ≤ 31 := by
            rw [hy, hm] at h6
            simpa [daysInMonth] using h6
          omega
        · omega
      · omega
    have : ordinal ⟨9999, 12, 31, 0⟩ = 3652059 := by decide
    omega

theorem ordinal_nextDay (t : PyDateTime) (h1 : 1 ≤ t.year) (h2 : 1 ≤ t.month)
    (h3 : t.month ≤ 12) (h4 : 1 ≤ t.day) (h5 : t.day ≤ daysInMonth t.year t.month) :
    ordinal (nextDay t) = ordinal t + 1 := by
  unfold nextDay
  split
  · simp only [ordinal]
    omega
  · split
    · rename_i hd hm
      simp only [ordinal]
      have hc := cumDays_succ t.year t.month h2 (by omega)
      omega
    · rename_i hd hm
      have hm12 : t.month = 12 := by omega
      simp only [ordinal]
      have hdd : t.day = 31 := by
        rw [hm12] at hd h5
        simp [daysInMonth] at hd h5
        omega
      have hlb := leapsBefore_succ t.year h1
      have hcd : cumDays t.year t.month = 334 + leapBit t.year := by
        rw [hm12]
        simp [cumDays]
      have hcd1 : cumDays (t.year + 1) 1 = 0 := by simp [cumDays]
      omega

theorem nextDay_tod (t : PyDateTime) : (nextDay t).tod = t.tod := by
  unfold nextDay
  split
  · rfl
  · split <;> rfl

theorem nextDay_valid (t : PyDateTime) (h : validDT t) (hl : ¬ isLastDay t) :
    validDT (nextDay t) := by
  obtain ⟨h1, h2, h3, h4, h5, h6, h7⟩ := h
  unfold isLastDay at hl
  unfold nextDay validDT
  split
  · rename_i hd
    simp only []
    omega
  · split
    · rename_i hd hm
      have := daysInMonth_pos t.year (t.month + 1) (by omega) (by omega)
      simp only []
      omega
    · rename_i hd hm
      have hm12 : t.month = 12 := by omega
      have hdd : t.day = 31 := by
        rw [hm12] at hd h6
        simp [daysInMonth] at hd h6
        omega
      have hy : t.year ≠ 9999 := fun e => hl ⟨e, hm12, hdd⟩
      have := daysInMonth_pos (t.year + 1) 1 (by omega) (by omega)
      simp only []
      omega

/-! ## `datetime.fromisoformat` and `strftime` models -/

/-- The value of a digit character, if it is one. -/
def digValC (c : Char) : Option Nat :=
  if isDigChar c then some (c.toNat - 48) else none

/-- The value of a two-digit group, if both characters are digits. -/
def twoDigs (a b : Char) : Option Nat :=
  match digValC a, digValC b with
  | some x, some y => some (10 * x + y)
  | _, _ => none

/-- The time-of-day part of an ISO string after the separator character:
`HH`, `HH:MM` or `HH:MM:SS`, with the same range checks CPython applies.
Returns seconds past midnight. -/
def parseTod (cs : List Char) : Option Nat :=
  match cs with
  | [a, b] =>
    match twoDigs a b with
    | some hh => if hh ≤ 23 then some (hh * 3600) else none
    | none => none
  | [a, b, ':', c, d] =>
    match twoDigs a b, twoDigs c d with
    | some hh, some mm =>
      if hh ≤ 23 ∧ mm ≤ 59 then some (hh * 3600 + mm * 60) else none
    | _, _ => none
  | [a, b, ':', c, d, ':', e, f] =>
    match twoDigs a b, twoDigs c d, twoDigs e f with
    | some hh, some mm, some ss =>
      if hh ≤ 23 ∧ mm ≤ 59 ∧ ss ≤ 59 then some (hh * 3600 + mm * 60 + ss)
      else none
    | _, _, _ => none
  | _ => none

/-- The year denoted by four digit values. -/
def isoYear (a b c d : Nat) : Nat := ((a * 10 + b) * 10 + c) * 10 + d

/-- Model of `datetime.fromisoformat` on the grammar fragment every CPython
version this source runs on accepts: a zero-padded `YYYY-MM-DD` date,
optionally followed by one separator character (CPython allows any) and a
`HH[:MM[:SS]]` time.  The range checks are those of the `datetime`
constructor.  Fractional seconds, timezone offsets and the basic-format
variants newer CPython also accepts are outside the model. -/
def parseIso (s : String) : Option PyDateTime :=
  match s.data with
  | y1 :: y2 :: y3 :: y4 :: '-' :: m1 :: m2 :: '-' :: d1 :: d2 :: rest =>
    match digValC y1, digValC y2, digValC y3, digValC y4,
          twoDigs m1 m2, twoDigs d1 d2 with
    | some a, some b, some c, some d, some mo, some da =>
      if 1 ≤ isoYear a b c d ∧ isoYear a b c d ≤ 9999 ∧ 1 ≤ mo ∧ mo ≤ 12 ∧
          1 ≤ da ∧ da ≤ daysInMonth (isoYear a b c d) mo then
        match rest with
        | [] => some ⟨isoYear a b c d, mo, da, 0⟩
        | _ :: time =>
          match parseTod time with
          | some tod => some ⟨isoYear a b c d, mo, da, tod⟩
          | none => none
      else none
    | _, _, _, _, _, _ => none
  | _ => none

/-- Two-character zero-padded decimal rendering (for `%m` and `%d`). -/
def pad2 (n : Nat) : List Char := [decChar (n / 10), decChar n]

/-- Model of `strftime("%Y-%m-%d")`: month and day are zero-padded to two
characters; the year is rendered unpadded, as glibc `%Y` does (year 999
renders as `999`). -/
def fmtDate (t : PyDateTime) : String :=
  ⟨natDigs t.year ++ '-' :: (pad2 t.month ++ '-' :: pad2 t.day)⟩

/-- Errors `_generate_daily_date_strings` raises during validation (both are
`ValueError` in Python; the spec names them `InvalidRangeError` and
`InvertedRangeError`). -/
inductive DateGenErr where
  | invalidFormat
  | invertedRange
  deriving DecidableEq, Repr

/-- The outcome of draining the generator: the yielded date strings, and
whether iteration ends in an `OverflowError` (raised by `+ timedelta(days=1)`
when the loop body has just yielded 9999-12-31, the maximum representable
date). -/
structure GenOut where
  dates : List String
  overflowed : Bool
  deriving DecidableEq, Repr

/-- The `while current_date <= range_end` loop of
`_generate_daily_date_strings`.  The loop terminates because the current date
strictly increases each iteration; `fuel` is an iteration bound the caller
chooses large enough (the wrapper passes one more than the ordinal distance,
and the spec lemmas show the fuel is never exhausted for parsed inputs). -/
def genLoop (stop : PyDateTime) (fuel : Nat) (cur : PyDateTime) : GenOut :=
  match fuel with
  | 0 => ⟨[], false⟩
  | fuel + 1 =>
    if dtLe cur stop then
      if isLastDay cur then ⟨[fmtDate cur], true⟩
      else
        let out := genLoop stop fuel (nextDay cur)
        ⟨fmtDate cur :: out.dates, out.overflowed⟩
    else ⟨[], false⟩

/-- Embedding of `_generate_daily_date_strings` (drained to a list): parse
both inputs (`ValueError` → `invalidFormat` if either fails), reject an
inverted range, then yield one formatted date per day. -/
def generateDailyDateStrings (startStr endStr : String) : Except DateGenErr GenOut :=
  match parseIso startStr, parseIso endStr with
  | some rs, some re =>
    if dtLt re rs then .error .invertedRange
    else .ok (genLoop re (ordinal re + 1 - ordinal rs) rs)
  | none, _ => .error .invalidFormat
  | _, none => .error .invalidFormat

/-! ## Properties of the date-range generator -/

theorem ordinal_lastDay (t : PyDateTime) (h : isLastDay t) : ordinal t = 3652059 := by
  obtain ⟨e1, e2, e3⟩ := h
  unfold ordinal
  rw [e1, e2, e3]
  decide

theorem ordinal_lt_max (t : PyDateTime) (h : validDT t) (hn : ¬ isLastDay t) :
    ordinal t < 3652059 := by
  have hmax : validDT ⟨9999, 12, 31, 0⟩ := by decide
  have hlt : ordinal t < ordinal ⟨9999, 12, 31, 0⟩ := by
    apply ordinal_lt_of_dateLt t _ h hmax
    obtain ⟨h1, h2, h3, h4, h5, h6, h7⟩ := h
    unfold isLastDay at hn
    simp only []
    by_cases hy : t.year = 9999
    · by_cases hm : t.month = 12
      · have : t.day ≤ 31 := by
          rw [hy, hm] at h6
          simpa [daysInMonth] using h6
        omega
      · omega
    · omega
  have : ordinal ⟨9999, 12, 31, 0⟩ = 3652059 := by decide
  omega

theorem parseTod_lt (cs : List Char) (v : Nat) (h : parseTod cs = some v) :
    v < 86400 := by
  unfold parseTod at h
  repeat' split at h
  all_goals cases h
  all_goals omega

theorem parseIso_valid (s : String) (t : PyDateTime) (h : parseIso s = some t) :
    validDT t := by
  unfold parseIso at h
  split at h
  · split at h
    · split at h
      · rename_i hcond
        split at h
        · cases h
          unfold validDT
          simp only []
          omega
        · split at h
          · rename_i tod htod
            cases h
            have hlt := parseTod_lt _ _ htod
            unfold validDT
            simp only []
            omega
          · cases h
      · cases h
    · cases h
  · cases h

theorem daysInMonth_le_31 (y m : Nat) : daysInMonth y m ≤ 31 := by
  have hb := leapBit_le_one y
  unfold daysInMonth
  split <;> omega

theorem pad2_inj (a b : Nat) (ha : a ≤ 99) (hb : b ≤ 99) (h : pad2 a = pad2 b) :
    a = b := by
  unfold pad2 at h
  simp only [List.cons.injEq, and_true] at h
  obtain ⟨h1, h2⟩ := h
  have e1 := congrArg Char.toNat h1
  have e2 := congrArg Char.toNat h2
  rw [decChar_toNat, decChar_toNat] at e1 e2
  omega

theorem fmtDate_inj (a b : PyDateTime) (ha : validDT a) (hb : validDT b)
    (htod : a.tod = b.tod) (h : fmtDate a = fmtDate b) : a = b := by
  have hd := congrArg String.data h
  simp only [fmtDate] at hd
  have hlen : ('-' :: (pad2 a.month ++ '-' :: pad2 a.day)).length
      = ('-' :: (pad2 b.month ++ '-' :: pad2 b.day)).length := by
    simp [pad2]
  obtain ⟨hy, hrest⟩ := List.append_inj' hd hlen
  have hyear := natDigs_inj _ _ hy
  simp only [List.cons.injEq, true_and] at hrest
  have hlen2 : ('-' :: pad2 a.day).length = ('-' :: pad2 b.day).length := by
    simp [pad2]
  obtain ⟨hm, hdrest⟩ := List.append_inj' hrest hlen2
  simp only [List.cons.injEq, true_and] at hdrest
  obtain ⟨ha1, ha2, ha3, ha4, ha5, ha6, ha7⟩ := ha
  obtain ⟨hb1, hb2, hb3, hb4, hb5, hb6, hb7⟩ := hb
  have hma := daysInMonth_le_31 a.year a.month
  have hmb := daysInMonth_le_31 b.year b.month
  have hmonth := pad2_inj a.month b.month (by omega) (by omega) hm
  have hday := pad2_inj a.day b.day (by omega) (by omega) hdrest
  obtain ⟨y1, m1, d1, s1⟩ := a
  obtain ⟨y2, m2, d2, s2⟩ := b
  simp only [] at hyear hmonth hday htod
  simp only [PyDateTime.mk.injEq]
  exact ⟨hyear, hmonth, hday, htod⟩

/-- Ghost version of `genLoop` that keeps the dates themselves rather than
their rendered strings; `genLoop` is its image under `fmtDate`. -/
def genLoopD (stop : PyDateTime) (fuel : Nat) (cur : PyDateTime) :
    List PyDateTime × Bool :=
  match fuel with
  | 0 => ([], false)
  | fuel + 1 =>
    if dtLe cur stop then
      if isLastDay cur then ([cur], true)
      else
        (cur :: (genLoopD stop fuel (nextDay cur)).1,
         (genLoopD stop fuel (nextDay cur)).2)
    else ([], false)

theorem genLoop_eq_mapD (stop : PyDateTime) : ∀ fuel cur,
    genLoop stop fuel cur
      = ⟨(genLoopD stop fuel cur).1.map fmtDate, (genLoopD stop fuel cur).2⟩ := by
  intro fuel
  induction fuel with
  | zero => intro cur; rfl
  | succ f ih =>
    intro cur
    simp only [genLoop, genLoopD]
    split
    · split
      · rfl
      · rw [ih (nextDay cur)]
        simp
    · rfl

theorem genLoopD_stop (stop : PyDateTime) (fuel : Nat) (cur : PyDateTime)
    (h : ¬ dtLe cur stop) : genLoopD stop fuel cur = ([], false) := by
  cases fuel <;> simp [genLoopD, h]

theorem genLoopD_succ (stop : PyDateTime) (f : Nat) (cur : PyDateTime) :
    genLoopD stop (f + 1) cur
      = if dtLe cur stop then
          if isLastDay cur then ([cur], true)
          else
            (cur :: (genLoopD stop f (nextDay cur)).1,
             (genLoopD stop f (nextDay cur)).2)
        else ([], false) := rfl

theorem genLoopD_spec (stop : PyDateTime) (hstop : validDT stop) :
    ∀ fuel cur, validDT cur → cur.tod = stop.tod →
      ordinal cur ≤ ordinal stop → ordinal stop + 1 - ordinal cur ≤ fuel →
      (genLoopD stop fuel cur).1.length = ordinal stop + 1 - ordinal cur ∧
      ((genLoopD stop fuel cur).2 = true ↔ isLastDay stop) ∧
      ∀ i t, (genLoopD stop fuel cur).1.get? i = some t →
        validDT t ∧ t.tod = stop.tod ∧ ordinal t = ordinal cur + i := by
  intro fuel
  induction fuel with
  | zero =>
    intro cur hv htod hle hfuel
    omega
  | succ f ih =>
    intro cur hv htod hle hfuel
    have hdtle : dtLe cur stop := (dtLe_iff_ordinal cur stop hv hstop htod).mpr hle
    rw [genLoopD_succ, if_pos hdtle]
    by_cases hlast : isLastDay cur
    · have h1 : ordinal cur = 3652059 := ordinal_lastDay cur hlast
      have h2 : ordinal stop ≤ 3652059 := ordinal_le_max stop hstop
      have hstoplast : isLastDay stop := by
        by_contra hsn
        have := ordinal_lt_max stop hstop hsn
        omega
      rw [if_pos hlast]
      refine ⟨by simp; omega, by simp [hstoplast], ?_⟩
      intro i t ht
      cases i with
      | zero =>
        simp only [List.get?_cons_zero, Option.some.injEq] at ht
        subst ht
        exact ⟨hv, htod, by omega⟩
      | succ j => simp at ht
    · have hnv : validDT (nextDay cur) := nextDay_valid cur hv hlast
      have hntod : (nextDay cur).tod = stop.tod := by rw [nextDay_tod]; exact htod
      obtain ⟨a1, a2, a3, a4, a5, a6, a7⟩ := hv
      have hnord : ordinal (nextDay cur) = ordinal cur + 1 :=
        ordinal_nextDay cur a1 a3 a4 a5 a6
      have hv' : validDT cur := ⟨a1, a2, a3, a4, a5, a6, a7⟩
      rw [if_neg hlast]
      by_cases heq : ordinal cur = ordinal stop
      · have hstopn : ¬ dtLe (nextDay cur) stop := by
          rw [dtLe_iff_ordinal (nextDay cur) stop hnv hstop hntod]
          omega
        have hrec := genLoopD_stop stop f (nextDay cur) hstopn
        have hsn : ¬ isLastDay stop := by
          intro hs
          have e1 := ordinal_lastDay stop hs
          have e2 := ordinal_lt_max cur hv' hlast
          omega
        rw [hrec]
        refine ⟨by simp; omega, by simp [hsn], ?_⟩
        intro i t ht
        cases i with
        | zero =>
          simp only [List.get?_cons_zero, Option.some.injEq] at ht
          subst ht
          exact ⟨hv', htod, by omega⟩
        | succ j => simp at ht
      · have hlt : ordinal cur < ordinal stop := by omega
        obtain ⟨ihlen, ihflag, ihidx⟩ := ih (nextDay cur) hnv hntod (by omega) (by omega)
        refine ⟨by simp only [List.length_cons, ihlen]; omega, by simpa using ihflag, ?_⟩
        intro i t ht
        cases i with
        | zero =>
          simp only [List.get?_cons_zero, Option.some.injEq] at ht
          subst ht
          exact ⟨hv', htod, by omega⟩
        | succ j =>
          simp only [List.get?_cons_succ] at ht
          obtain ⟨v1, v2, v3⟩ := ihidx j t ht
          exact ⟨v1, v2, by omega⟩

theorem dtLt_iff_ordinal (a b : PyDateTime) (ha : validDT a) (hb : validDT b)
    (htod : a.tod = b.tod) : dtLt a b ↔ ordinal a < ordinal b := by
  constructor
  · exact ordinal_lt_of_dtLt a b ha hb htod
  · intro h
    rcases dt_trichotomy a b with h1 | h1 | h1
    · exact h1
    · subst h1; omega
    · have := ordinal_lt_of_dtLt b a hb ha htod.symm h1
      omega

/-- C1: for every pair of valid calendar dates (start, end), given to the
generator in ISO form, with start ≤ end, the generator yields one date string
per day: the yielded list is the `fmtDate` image of a list of days whose
length is the day distance plus one, whose i-th entry is exactly i days after
start (hence strictly ascending, first entry start, last entry end, no gaps),
which contains every valid day between start and end, and whose rendered
strings contain no duplicates.  (The `overflowed` flag records the
`OverflowError` CPython additionally raises after the last yield when end is
9999-12-31; it does not affect the yielded dates.) -/
theorem claim_C1_dateRangeGenerator (s e : String) (ts te : PyDateTime)
    (hs : parseIso s = some ts) (he : parseIso e = some te)
    (hts : ts.tod = 0) (hte : te.tod = 0)
    (hord : ordinal ts ≤ ordinal te) :
    ∃ ds : List PyDateTime,
      generateDailyDateStrings s e
        = .ok ⟨ds.map fmtDate, decide (isLastDay te)⟩ ∧
      ds.length = ordinal te + 1 - ordinal ts ∧
      (∀ i t, ds.get? i = some t →
        validDT t ∧ t.tod = 0 ∧ ordinal t = ordinal ts + i) ∧
      (∀ i t u, ds.get? i = some t → ds.get? (i + 1) = some u →
        dtLt t u ∧ ordinal u = ordinal t + 1) ∧
      ds.get? 0 = some ts ∧
      ds.get? (ordinal te - ordinal ts) = some te ∧
      (∀ t, validDT t → t.tod = 0 → ordinal ts ≤ ordinal t → ordinal t ≤ ordinal te →
        t ∈ ds) ∧
      (ds.map fmtDate).Nodup := by
  have hvs : validDT ts := parseIso_valid s ts hs
  have hve : validDT te := parseIso_valid e te he
  have htt : ts.tod = te.tod := by rw [hts, hte]
  have hninv : ¬ dtLt te ts := by
    rw [dtLt_iff_ordinal te ts hve hvs htt.symm]
    omega
  obtain ⟨hlen, hflag, hidx⟩ :=
    genLoopD_spec te hve (ordinal te + 1 - ordinal ts) ts hvs htt hord (by omega)
  refine ⟨(genLoopD te (ordinal te + 1 - ordinal ts) ts).1, ?_, ?_, ?_, ?_, ?_, ?_, ?_, ?_⟩
  · simp only [generateDailyDateStrings, hs, he, if_neg hninv]
    rw [genLoop_eq_mapD]
    have hb : (genLoopD te (ordinal te + 1 - ordinal ts) ts).2 = decide (isLastDay te) := by
      by_cases hl : isLastDay te
      · simp only [hl, iff_true] at hflag
        simp [hflag, hl]
      · simp only [hl, iff_false] at hflag
        simp [hl]
        exact Bool.not_eq_true _ |>.mp hflag
    rw [hb]
  · exact hlen
  · intro i t ht
    obtain ⟨v1, v2, v3⟩ := hidx i t ht
    exact ⟨v1, by rw [v2, hte], v3⟩
  · intro i t u ht hu
    obtain ⟨v1, v2, v3⟩ := hidx i t ht
    obtain ⟨w1, w2, w3⟩ := hidx (i + 1) u hu
    constructor
    · rw [dtLt_iff_ordinal t u v1 w1 (by rw [v2, w2])]
      omega
    · omega
  · have h0 : 0 < (genLoopD te (ordinal te + 1 - ordinal ts) ts).1.length := by omega
    rw [List.get?_eq_get h0]
    obtain ⟨v1, v2, v3⟩ := hidx 0 _ (List.get?_eq_get h0)
    have : (genLoopD te (ordinal te + 1 - ordinal ts) ts).1.get ⟨0, h0⟩ = ts := by
      apply dt_eq_of_ordinal _ _ v1 hvs (by rw [v2, hts, hte])
      omega
    rw [this]
  · have hl : ordinal te - ordinal ts < (genLoopD te (ordinal te + 1 - ordinal ts) ts).1.length := by
      omega
    rw [List.get?_eq_get hl]
    obtain ⟨v1, v2, v3⟩ := hidx (ordinal te - ordinal ts) _ (List.get?_eq_get hl)
    have : (genLoopD te (ordinal te + 1 - ordinal ts) ts).1.get ⟨ordinal te - ordinal ts, hl⟩ = te := by
      apply dt_eq_of_ordinal _ _ v1 hve (by rw [v2, hte])
      omega
    rw [this]
  · intro t hv htod0 h1 h2
    have hi : ordinal t - ordinal ts < (genLoopD te (ordinal te + 1 - ordinal ts) ts).1.length := by
      omega
    have hget := List.get?_eq_get hi
    obtain ⟨v1, v2, v3⟩ := hidx (ordinal t - ordinal ts) _ hget
    have heq : (genLoopD te (ordinal te + 1 - ordinal ts) ts).1.get ⟨ordinal t - ordinal ts, hi⟩ = t := by
      apply dt_eq_of_ordinal _ _ v1 hv (by rw [v2, htod0, hte])
      omega
    rw [← heq]
    exact List.get_mem _ _ hi
  · rw [List.nodup_iff_get?_ne_get?]
    intro i j hij hj hne
    rw [List.length_map] at hj
    have hi : i < (genLoopD te (ordinal te + 1 - ordinal ts) ts).1.length := by omega
    rw [List.get?_map, List.get?_map, List.get?_eq_get hi, List.get?_eq_get hj] at hne
    simp only [Option.map_some', Option.some.injEq] at hne
    obtain ⟨v1, v2, v3⟩ := hidx i _ (List.get?_eq_get hi)
    obtain ⟨w1, w2, w3⟩ := hidx j _ (List.get?_eq_get hj)
    have := fmtDate_inj _ _ v1 w1 (by rw [v2, w2]) hne
    rw [this] at v3
    omega

theorem claim_C1_dateRangeGenerator_witness :
    parseIso ("2024-02-27") = some ⟨2024, 2, 27, 0⟩ ∧
    parseIso ("2024-03-02") = some ⟨2024, 3, 2, 0⟩ ∧
    (⟨2024, 2, 27, 0⟩ : PyDateTime).tod = 0 ∧
    (⟨2024, 3, 2, 0⟩ : PyDateTime).tod = 0 ∧
    ordinal ⟨2024, 2, 27, 0⟩ ≤ ordinal ⟨2024, 3, 2, 0⟩ ∧
    (∃ ds : List PyDateTime,
      generateDailyDateStrings ("2024-02-27") ("2024-03-02")
        = .ok ⟨ds.map fmtDate, decide (isLastDay ⟨2024, 3, 2, 0⟩)⟩ ∧
      ds.length = ordinal ⟨2024, 3, 2, 0⟩ + 1 - ordinal ⟨2024, 2, 27, 0⟩ ∧
      (∀ i t, ds.get? i = some t →
        validDT t ∧ t.tod = 0 ∧ ordinal t = ordinal ⟨2024, 2, 27, 0⟩ + i) ∧
      (∀ i t u, ds.get? i = some t → ds.get? (i + 1) = some u →
        dtLt t u ∧ ordinal u = ordinal t + 1) ∧
      ds.get? 0 = some ⟨2024, 2, 27, 0⟩ ∧
      ds.get? (ordinal ⟨2024, 3, 2, 0⟩ - ordinal ⟨2024, 2, 27, 0⟩) = some ⟨2024, 3, 2, 0⟩ ∧
      (∀ t, validDT t → t.tod = 0 → ordinal ⟨2024, 2, 27, 0⟩ ≤ ordinal t →
        ordinal t ≤ ordinal ⟨2024, 3, 2, 0⟩ → t ∈ ds) ∧
      (ds.map fmtDate).Nodup) :=
  ⟨rfl, rfl, rfl, rfl, by decide,
   claim_C1_dateRangeGenerator _ _ _ _ rfl rfl rfl rfl (by decide)⟩

/-- C7: for valid calendar dates with start strictly after end, the generator
raises the inverted-range `ValueError` (the spec's `InvertedRangeError`)
during validation, before any date is yielded. -/
theorem claim_C7_invertedRange (s e : String) (ts te : PyDateTime)
    (hs : parseIso s = some ts) (he : parseIso e = some te)
    (hts : ts.tod = 0) (hte : te.tod = 0)
    (hord : ordinal te < ordinal ts) :
    generateDailyDateStrings s e = .error .invertedRange := by
  have hvs := parseIso_valid s ts hs
  have hve := parseIso_valid e te he
  have hinv : dtLt te ts := by
    rw [dtLt_iff_ordinal te ts hve hvs (by rw [hts, hte])]
    exact hord
  simp only [generateDailyDateStrings, hs, he, if_pos hinv]

theorem claim_C7_invertedRange_witness :
    parseIso ("2024-01-05") = some ⟨2024, 1, 5, 0⟩ ∧
    parseIso ("2024-01-02") = some ⟨2024, 1, 2, 0⟩ ∧
    ordinal ⟨2024, 1, 2, 0⟩ < ordinal ⟨2024, 1, 5, 0⟩ ∧
    generateDailyDateStrings ("2024-01-05") ("2024-01-02") = .error .invertedRange :=
  ⟨rfl, rfl, by decide, claim_C7_invertedRange _ _ _ _ rfl rfl rfl rfl (by decide)⟩

/-- Claim-side predicate, from the spec's words: a string is a well-formed
calendar date iff it is a ten-character `YYYY-MM-DD` rendering of a valid
calendar day (in particular, it carries no time-of-day part). -/
def isWellFormedCalendarDate (s : String) : Bool :=
  match parseIso s with
  | some _ => s.data.length == 10
  | none => false

/-- C8 is refuted: the string `2024-01-01T12:00:00` is not a well-formed
calendar date (it is a datetime), yet `_generate_daily_date_strings` accepts
it — `datetime.fromisoformat` parses datetime strings — and yields a date
instead of raising the invalid-format `ValueError`. -/
theorem claim_C8_counterexample :
    isWellFormedCalendarDate ("2024-01-01T12:00:00") = false ∧
    generateDailyDateStrings ("2024-01-01T12:00:00") ("2024-01-02")
      = .ok ⟨["2024-01-01"], false⟩ ∧
    generateDailyDateStrings ("2024-01-01T12:00:00") ("2024-01-02")
      ≠ .error .invalidFormat := by
  refine ⟨rfl, rfl, fun h => ?_⟩
  have h2 := (rfl :
    generateDailyDateStrings ("2024-01-01T12:00:00") ("2024-01-02")
      = .ok ⟨["2024-01-01"], false⟩).symm.trans h
  exact Except.noConfusion h2

/-- C8 (amended): the generator raises the invalid-format `ValueError` (the
spec's `InvalidRangeError`) and yields no dates exactly when an input fails
ISO parsing; the parser also accepts ISO datetime strings with a time part,
which are not calendar dates but are not rejected. -/
theorem claim_C8_invalidFormat (s e : String)
    (h : parseIso s = none ∨ parseIso e = none) :
    generateDailyDateStrings s e = .error .invalidFormat := by
  rcases h with h | h
  · cases hx : parseIso e <;> simp [generateDailyDateStrings, h, hx]
  · cases hx : parseIso s <;> simp [generateDailyDateStrings, h, hx]

theorem claim_C8_invalidFormat_witness :
    (parseIso ("2024-13-01") = none ∨ parseIso ("2024-01-02") = none) ∧
    generateDailyDateStrings ("2024-13-01") ("2024-01-02") = .error .invalidFormat :=
  ⟨Or.inl rfl, claim_C8_invalidFormat _ _ (Or.inl rfl)⟩

/-! ## The JSON model

Values as `json.dump` / `json.load` handle them for this scraper: null,
booleans, (arbitrary-precision) integers, strings, arrays and objects.
Floats are outside the model.  `pyDumps` renders with the default `json.dump`
separators, `", "` and `": "`, and the default short escapes; `ensure_ascii`
escaping of characters above 0x7e is folded away (they are rendered
literally), which `json.load` inverts either way. -/

inductive JVal where
  | null
  | bool (b : Bool)
  | num (n : Int)
  | str (s : String)
  | arr (elems : List JVal)
  | obj (fields : List (String × JVal))

/-- Lowercase hexadecimal digit character for `n < 16`. -/
def hexChar (n : Nat) : Char :=
  match n with
  | 10 => 'a' | 11 => 'b' | 12 => 'c' | 13 => 'd' | 14 => 'e' | 15 => 'f'
  | k => decChar k

/-- A backslash followed by one escape letter. -/
def esc2 (e : Char) : List Char := ['\\', e]

/-- One character of a JSON string body, escaped as `json.dump` writes it:
short escapes for the quote (code 34), the backslash (92) and the five C0
controls that have them, `\u00xy` for the remaining control characters,
everything else literal. -/
def escChar (c : Char) : List Char :=
  if c.toNat = 34 then esc2 c
  else if c.toNat = 92 then esc2 c
  else if c.toNat = 10 then esc2 ('n')
  else if c.toNat = 9 then esc2 ('t')
  else if c.toNat = 13 then esc2 ('r')
  else if c.toNat = 8 then esc2 ('b')
  else if c.toNat = 12 then esc2 ('f')
  else if c.toNat < 32 then
    '\\' :: 'u' :: '0' :: '0' :: hexChar (c.toNat / 16) :: hexChar (c.toNat % 16) :: []
  else [c]

/-- A JSON string literal: quote, escaped body, quote. -/
def strQuote (s : String) : List Char :=
  '"' :: (s.data.flatMap escChar ++ ['"'])

/-- The characters of an integer as Python renders it. -/
def intChars (i : Int) : List Char :=
  if i < 0 then '-' :: natDigs i.natAbs else natDigs i.natAbs

/-- The keyword `null` as characters. -/
def kwNull : List Char := ['n', 'u', 'l', 'l']

/-- The keyword `true` as characters. -/
def kwTrue : List Char := ['t', 'r', 'u', 'e']

/-- The keyword `false` as characters. -/
def kwFalse : List Char := ['f', 'a', 'l', 's', 'e']

mutual

/-- Characters of `json.dumps(v)` with the default separators. -/
def dumpV : JVal → List Char
  | .null => kwNull
  | .bool true => kwTrue
  | .bool false => kwFalse
  | .num i => intChars i
  | .str s => strQuote s
  | .arr es => '[' :: (dumpItems es ++ [']'])
  | .obj ps => '{' :: (dumpPairs ps ++ ['}'])

/-- Array elements, `", "`-separated. -/
def dumpItems : List JVal → List Char
  | [] => []
  | v :: vs => dumpV v ++ dumpItemsTail vs

def dumpItemsTail : List JVal → List Char
  | [] => []
  | v :: vs => ',' :: ' ' :: (dumpV v ++ dumpItemsTail vs)

/-- Object members, keys quoted, `": "` between key and value, `", "`
between members. -/
def dumpPairs : List (String × JVal) → List Char
  | [] => []
  | (k, v) :: ps => strQuote k ++ ':' :: ' ' :: (dumpV v ++ dumpPairsTail ps)

def dumpPairsTail : List (String × JVal) → List Char
  | [] => []
  | (k, v) :: ps =>
    ',' :: ' ' :: (strQuote k ++ ':' :: ' ' :: (dumpV v ++ dumpPairsTail ps))

end

/-- Model of `json.dumps` with its default options. -/
def pyDumps (v : JVal) : String := ⟨dumpV v⟩

/-- Whether a character counts as JSON whitespace (codes 32, 9, 10, 13). -/
def wsChar (c : Char) : Bool :=
  c.toNat = 32 || c.toNat = 9 || c.toNat = 10 || c.toNat = 13

/-- Drop leading JSON whitespace. -/
def dropWs : List Char → List Char
  | c :: r => if wsChar c then dropWs r else c :: r
  | [] => []

/-- Split a longest (possibly empty) digit run off the front. -/
def lexDigits : List Char → List Char × List Char
  | c :: r =>
    if isDigChar c then ((c :: (lexDigits r).1), (lexDigits r).2)
    else ([], c :: r)
  | [] => ([], [])

/-- The value of one hexadecimal digit character. -/
def hexDigVal (c : Char) : Option Nat :=
  if 48 ≤ c.toNat ∧ c.toNat ≤ 57 then some (c.toNat - 48)
  else if 97 ≤ c.toNat ∧ c.toNat ≤ 102 then some (c.toNat - 87)
  else if 65 ≤ c.toNat ∧ c.toNat ≤ 70 then some (c.toNat - 55)
  else none

/-- The value of a four-hex-digit escape. -/
def hexQuad (a b c d : Char) : Option Nat :=
  match hexDigVal a, hexDigVal b, hexDigVal c, hexDigVal d with
  | some va, some vb, some vc, some vd => some (((va * 16 + vb) * 16 + vc) * 16 + vd)
  | _, _, _, _ => none

/-- The character a one-character escape denotes. -/
def unescC (c : Char) : Option Char :=
  match c with
  | '"' => some '"'
  | '\\' => some '\\'
  | '/' => some '/'
  | 'n' => some '\n'
  | 't' => some '\t'
  | 'r' => some '\r'
  | 'b' => some (Char.ofNat 8)
  | 'f' => some (Char.ofNat 12)
  | _ => none

/-- Parse a JSON string body after the opening quote (strict mode: a bare
control character is an error, as in `json.load`). -/
def readStrAux (acc : List Char) : List Char → Option (String × List Char)
  | '"' :: r => some (⟨acc.reverse⟩, r)
  | '\\' :: 'u' :: a :: b :: c :: d :: r =>
    match hexQuad a b c d with
    | some n => readStrAux (Char.ofNat n :: acc) r
    | none => none
  | '\\' :: e :: r =>
    match unescC e with
    | some ch => readStrAux (ch :: acc) r
    | none => none
  | c :: r => if c.toNat < 32 then none else readStrAux (c :: acc) r
  | [] => none

/-- Parse an integer: optional minus sign, then a nonempty digit run. -/
def readNum (cs : List Char) : Option (Int × List Char) :=
  match cs with
  | c :: rest =>
    if c = '-' then
      match lexDigits rest with
      | ([], _) => none
      | (ds, r) => some (-(digsVal ds : Int), r)
    else
      match lexDigits (c :: rest) with
      | ([], _) => none
      | (ds, r) => some ((digsVal ds : Int), r)
  | [] => none

mutual

/-- Parse one JSON value (integers only among numbers).  Structurally
recursive on `fuel`; `pyLoads` passes the input length plus one, which the
round-trip lemmas show is enough for every rendered value. -/
def readVal (fuel : Nat) (cs : List Char) : Option (JVal × List Char) :=
  match fuel with
  | 0 => none
  | fuel + 1 =>
    match dropWs cs with
    | 'n' :: 'u' :: 'l' :: 'l' :: r => some (.null, r)
    | 't' :: 'r' :: 'u' :: 'e' :: r => some (.bool true, r)
    | 'f' :: 'a' :: 'l' :: 's' :: 'e' :: r => some (.bool false, r)
    | '"' :: r =>
      match readStrAux [] r with
      | some (s, r2) => some (.str s, r2)
      | none => none
    | '[' :: r =>
      match dropWs r with
      | [] => none
      | c :: r2 =>
        if c = ']' then some (.arr [], r2)
        else
          match readItems fuel (c :: r2) with
          | some (es, r3) => some (.arr es, r3)
          | none => none
    | '{' :: r =>
      match dropWs r with
      | [] => none
      | c :: r2 =>
        if c = '}' then some (.obj [], r2)
        else
          match readPairs fuel (c :: r2) with
          | some (ps, r3) => some (.obj ps, r3)
          | none => none
    | c :: r =>
      if c = '-' ∨ isDigChar c then
        match readNum (c :: r) with
        | some (i, r2) => some (.num i, r2)
        | none => none
      else none
    | [] => none

/-- Parse one-or-more comma-separated array elements up to `]`. -/
def readItems (fuel : Nat) (cs : List Char) : Option (List JVal × List Char) :=
  match fuel with
  | 0 => none
  | fuel + 1 =>
    match readVal fuel cs with
    | some (v, r) =>
      match dropWs r with
      | ',' :: r2 =>
        match readItems fuel r2 with
        | some (vs, r3) => some (v :: vs, r3)
        | none => none
      | ']' :: r2 => some ([v], r2)
      | _ => none
    | none => none

/-- Parse one-or-more comma-separated object members up to `}`. -/
def readPairs (fuel : Nat) (cs : List Char) : Option (List (String × JVal) × List Char) :=
  match fuel with
  | 0 => none
  | fuel + 1 =>
    match dropWs cs with
    | '"' :: r =>
      match readStrAux [] r with
      | some (k, r1) =>
        match dropWs r1 with
        | ':' :: r2 =>
          match readVal fuel r2 with
          | some (v, r3) =>
            match dropWs r3 with
            | ',' :: r4 =>
              match readPairs fuel r4 with
              | some (ps, r5) => some ((k, v) :: ps, r5)
              | none => none
            | '}' :: r4 => some ([(k, v)], r4)
            | _ => none
          | none => none
        | _ => none
      | none => none
    | _ => none

end

/-- Model of `json.loads`: parse one value, allow trailing whitespace only. -/
def pyLoads (s : String) : Option JVal :=
  match readVal (s.data.length + 1) s.data with
  | some (v, r) => if dropWs r = [] then some v else none
  | none => none

/-! ## The codec round-trip, number and string layers -/

/-- A remainder a rendered number cannot absorb: empty or not digit-headed.
Every position a value can occupy in rendered JSON ends this way. -/
def numStop : List Char → Bool
  | [] => true
  | c :: _ => !(isDigChar c)

theorem natDigs_head (n : Nat) :
    ∃ c t, natDigs n = c :: t ∧ isDigChar c = true := by
  match h : natDigs n with
  | [] => exact absurd h (natDigs_ne_nil n)
  | c :: t =>
    refine ⟨c, t, rfl, natDigs_digits n c ?_⟩
    rw [h]
    exact List.mem_cons_self c t

theorem digChar_facts (c : Char) (h : isDigChar c = true) :
    wsChar c = false ∧ c ≠ ']' ∧ c ≠ '}' ∧ c ≠ ',' ∧ c ≠ ':' ∧ c ≠ '-' ∧
      c ≠ 'n' ∧ c ≠ 't' ∧ c ≠ 'f' ∧ c ≠ '"' ∧ c ≠ '[' ∧ c ≠ '{' := by
  simp only [isDigChar, Bool.and_eq_true, decide_eq_true_eq] at h
  refine ⟨?_, ?_, ?_, ?_, ?_, ?_, ?_, ?_, ?_, ?_, ?_, ?_⟩
  · simp only [wsChar, Bool.or_eq_false_iff, decide_eq_false_iff_not]
    omega
  all_goals (intro he; subst he; simp at h)

theorem lexDigits_stop (cs : List Char) (h : numStop cs = true) :
    lexDigits cs = ([], cs) := by
  cases cs with
  | nil => rfl
  | cons c t =>
    simp only [numStop, Bool.not_eq_true'] at h
    simp [lexDigits, h]

theorem lexDigits_run (ds : List Char) (hds : ∀ c ∈ ds, isDigChar c = true)
    (rest : List Char) (hr : numStop rest = true) :
    lexDigits (ds ++ rest) = (ds, rest) := by
  induction ds with
  | nil => simpa using lexDigits_stop rest hr
  | cons c t ih =>
    have hc : isDigChar c = true := hds c (List.mem_cons_self c t)
    have ht := ih (fun x hx => hds x (List.mem_cons_of_mem c hx))
    simp [lexDigits, hc, ht]

theorem readNum_intChars (i : Int) (rest : List Char) (hr : numStop rest = true) :
    readNum (intChars i ++ rest) = some (i, rest) := by
  obtain ⟨c, t, hnd, hcd⟩ := natDigs_head i.natAbs
  have hrun : lexDigits (natDigs i.natAbs ++ rest) = (natDigs i.natAbs, rest) :=
    lexDigits_run _ (natDigs_digits _) rest hr
  have hval : (digsVal (natDigs i.natAbs) : Int) = (i.natAbs : Int) := by
    rw [digsVal_natDigs]
  by_cases hi : i < 0
  · have harg : intChars i ++ rest = '-' :: (natDigs i.natAbs ++ rest) := by
      simp [intChars, hi]
    rw [harg]
    have step : readNum ('-' :: (natDigs i.natAbs ++ rest))
        = (match lexDigits (natDigs i.natAbs ++ rest) with
           | ([], _) => none
           | (ds, r) => some (-(digsVal ds : Int), r)) := rfl
    rw [step, hrun, hnd]
    rw [hnd] at hval
    simp only [Option.some.injEq, Prod.mk.injEq, and_true]
    omega
  · obtain ⟨_, _, _, _, _, hnm, _⟩ := digChar_facts c hcd
    have harg : intChars i ++ rest = c :: (t ++ rest) := by
      simp [intChars, hi, hnd]
    rw [harg]
    have step : readNum (c :: (t ++ rest))
        = if c = '-' then
            (match lexDigits (t ++ rest) with
             | ([], _) => none
             | (ds, r) => some (-(digsVal ds : Int), r))
          else
            (match lexDigits (c :: (t ++ rest)) with
             | ([], _) => none
             | (ds, r) => some ((digsVal ds : Int), r)) := rfl
    rw [step, if_neg hnm]
    rw [show c :: (t ++ rest) = (c :: t) ++ rest from rfl, ← hnd, hrun, hnd]
    rw [hnd] at hval
    simp only [Option.some.injEq, Prod.mk.injEq, and_true]
    omega

theorem hexDigVal_hexChar (n : Nat) (h : n < 16) : hexDigVal (hexChar n) = some n := by
  interval_cases n <;> decide

theorem readStrAux_esc (c : Char) (acc rest : List Char) :
    readStrAux acc (escChar c ++ rest) = readStrAux (c :: acc) rest := by
  by_cases h34 : c.toNat = 34
  · have hc : c = '"' := by rw [← Char.ofNat_toNat c, h34]
    subst hc; rfl
  · by_cases h92 : c.toNat = 92
    · have hc : c = '\\' := by rw [← Char.ofNat_toNat c, h92]
      subst hc; rfl
    · by_cases h10 : c.toNat = 10
      · have hc : c = '\n' := by rw [← Char.ofNat_toNat c, h10]
        subst hc; rfl
      · by_cases h9 : c.toNat = 9
        · have hc : c = '\t' := by rw [← Char.ofNat_toNat c, h9]
          subst hc; rfl
        · by_cases h13 : c.toNat = 13
          · have hc : c = '\r' := by rw [← Char.ofNat_toNat c, h13]
            subst hc; rfl
          · by_cases h8 : c.toNat = 8
            · have hc : c = '\x08' := by rw [← Char.ofNat_toNat c, h8]
              subst hc; rfl
            · by_cases h12 : c.toNat = 12
              · have hc : c = '\x0c' := by rw [← Char.ofNat_toNat c, h12]
                subst hc; rfl
              · unfold escChar
                rw [if_neg h34, if_neg h92, if_neg h10, if_neg h9, if_neg h13,
                  if_neg h8, if_neg h12]
                by_cases hlt : c.toNat < 32
                · rw [if_pos hlt]
                  have hq : hexQuad '0' '0' (hexChar (c.toNat / 16)) (hexChar (c.toNat % 16))
                      = some c.toNat := by
                    have e1 : hexDigVal '0' = some 0 := rfl
                    have e2 := hexDigVal_hexChar (c.toNat / 16) (by omega)
                    have e3 := hexDigVal_hexChar (c.toNat % 16) (by omega)
                    simp only [hexQuad, e1, e2, e3]
                    congr 1
                    omega
                  rw [show readStrAux acc
                        ('\\' :: 'u' :: '0' :: '0' :: hexChar (c.toNat / 16)
                          :: hexChar (c.toNat % 16) :: [] ++ rest)
                      = (match hexQuad '0' '0' (hexChar (c.toNat / 16))
                            (hexChar (c.toNat % 16)) with
                         | some n => readStrAux (Char.ofNat n :: acc) rest
                         | none => none) from rfl]
                  rw [hq]
                  show readStrAux (Char.ofNat c.toNat :: acc) rest = readStrAux (c :: acc) rest
                  rw [Char.ofNat_toNat]
                · rw [if_neg hlt]
                  rw [readStrAux.eq_def]
                  have h1' : c ≠ '"' := by intro he; subst he; exact h34 rfl
                  have h2' : c ≠ '\\' := by intro he; subst he; exact h92 rfl
                  simp [h1', h2', hlt]

theorem readStrAux_flat (cs : List Char) : ∀ acc rest,
    readStrAux acc (cs.flatMap escChar ++ '"' :: rest)
      = some (⟨acc.reverse ++ cs⟩, rest) := by
  induction cs with
  | nil =>
    intro acc rest
    simp [readStrAux]
  | cons c t ih =>
    intro acc rest
    rw [List.flatMap_cons, List.append_assoc, readStrAux_esc, ih]
    simp

theorem readStr_strQuote (s : String) (rest : List Char) :
    readStrAux [] (s.data.flatMap escChar ++ '"' :: rest) = some (s, rest) := by
  rw [readStrAux_flat]
  simp

/-! ## The codec round-trip, value layer -/

theorem dumpV_head (v : JVal) :
    ∃ c t, dumpV v = c :: t ∧ wsChar c = false ∧ c ≠ ']' ∧ c ≠ '}' ∧
      c ≠ ',' ∧ c ≠ ':' := by
  cases v with
  | null => exact ⟨'n', _, rfl, by decide, by decide, by decide, by decide, by decide⟩
  | bool b =>
    cases b with
    | true => exact ⟨'t', _, rfl, by decide, by decide, by decide, by decide, by decide⟩
    | false => exact ⟨'f', _, rfl, by decide, by decide, by decide, by decide, by decide⟩
  | str s => exact ⟨'"', _, rfl, by decide, by decide, by decide, by decide, by decide⟩
  | arr es => exact ⟨'[', _, rfl, by decide, by decide, by decide, by decide, by decide⟩
  | obj ps => exact ⟨'{', _, rfl, by decide, by decide, by decide, by decide, by decide⟩
  | num i =>
    by_cases hi : i < 0
    · refine ⟨'-', natDigs i.natAbs, ?_, by decide, by decide, by decide, by decide, by decide⟩
      simp [dumpV, intChars, hi]
    · obtain ⟨c, t, hnd, hcd⟩ := natDigs_head i.natAbs
      obtain ⟨w1, w2, w3, w4, w5, _⟩ := digChar_facts c hcd
      refine ⟨c, t, ?_, w1, w2, w3, w4, w5⟩
      simp [dumpV, intChars, hi, hnd]

theorem dropWs_dumpV (v : JVal) (x : List Char) :
    dropWs (dumpV v ++ x) = dumpV v ++ x := by
  obtain ⟨c, t, hd, hws, _, _, _, _⟩ := dumpV_head v
  rw [hd, List.cons_append]
  simp [dropWs, hws]

theorem dumpV_length_pos (v : JVal) : 1 ≤ (dumpV v).length := by
  obtain ⟨c, t, hd, _⟩ := dumpV_head v
  rw [hd]
  simp

/-- One-step unfolding of `readVal` at successor fuel (definitional). -/
theorem readVal_succ_def (f : Nat) (cs : List Char) :
    readVal (f + 1) cs
      = match dropWs cs with
        | 'n' :: 'u' :: 'l' :: 'l' :: r => some (.null, r)
        | 't' :: 'r' :: 'u' :: 'e' :: r => some (.bool true, r)
        | 'f' :: 'a' :: 'l' :: 's' :: 'e' :: r => some (.bool false, r)
        | '"' :: r =>
          match readStrAux [] r with
          | some (s, r2) => some (.str s, r2)
          | none => none
        | '[' :: r =>
          match dropWs r with
          | [] => none
          | c :: r2 =>
            if c = ']' then some (.arr [], r2)
            else
              match readItems f (c :: r2) with
              | some (es, r3) => some (.arr es, r3)
              | none => none
        | '{' :: r =>
          match dropWs r with
          | [] => none
          | c :: r2 =>
            if c = '}' then some (.obj [], r2)
            else
              match readPairs f (c :: r2) with
              | some (ps, r3) => some (.obj ps, r3)
              | none => none
        | c :: r =>
          if c = '-' ∨ isDigChar c then
            match readNum (c :: r) with
            | some (i, r2) => some (.num i, r2)
            | none => none
          else none
        | [] => none := rfl

theorem dropWs_ws (c : Char) (cs : List Char) (hc : wsChar c = true) :
    dropWs (c :: cs) = dropWs cs := by
  simp [dropWs, hc]

theorem readVal_ws (f : Nat) (c : Char) (cs : List Char) (hc : wsChar c = true) :
    readVal f (c :: cs) = readVal f cs := by
  cases f with
  | zero => rfl
  | succ f => rw [readVal_succ_def, readVal_succ_def, dropWs_ws c cs hc]

theorem readItems_ws (f : Nat) (c : Char) (cs : List Char) (hc : wsChar c = true) :
    readItems f (c :: cs) = readItems f cs := by
  cases f with
  | zero => rfl
  | succ f =>
    show (match readVal f (c :: cs) with
          | some (v, r) =>
            match dropWs r with
            | ',' :: r2 =>
              match readItems f r2 with
              | some (vs, r3) => some (v :: vs, r3)
              | none => none
            | ']' :: r2 => some ([v], r2)
            | _ => none
          | none => none)
        = (match readVal f cs with
          | some (v, r) =>
            match dropWs r with
            | ',' :: r2 =>
              match readItems f r2 with
              | some (vs, r3) => some (v :: vs, r3)
              | none => none
            | ']' :: r2 => some ([v], r2)
            | _ => none
          | none => none)
    rw [readVal_ws f c cs hc]

theorem readPairs_ws (f : Nat) (c : Char) (cs : List Char) (hc : wsChar c = true) :
    readPairs f (c :: cs) = readPairs f cs := by
  cases f with
  | zero => rfl
  | succ f =>
    show (match dropWs (c :: cs) with
          | '"' :: r =>
            match readStrAux [] r with
            | some (k, r1) =>
              match dropWs r1 with
              | ':' :: r2 =>
                match readVal f r2 with
                | some (v, r3) =>
                  match dropWs r3 with
                  | ',' :: r4 =>
                    match readPairs f r4 with
                    | some (ps, r5) => some ((k, v) :: ps, r5)
                    | none => none
                  | '}' :: r4 => some ([(k, v)], r4)
                  | _ => none
                | none => none
              | _ => none
            | none => none
          | _ => none)
        = _
    rw [dropWs_ws c cs hc]
    rfl

/-- A digit-headed input dispatches to the number branch of `readVal`. -/
theorem readVal_digitStart (f : Nat) (c : Char) (t : List Char)
    (hcd : isDigChar c = true) :
    readVal (f + 1) (c :: t)
      = (match readNum (c :: t) with
         | some (i, r2) => some (.num i, r2)
         | none => none) := by
  obtain ⟨w1, w2, w3, w4, w5, w6, w7, w8, w9, w10, w11, w12⟩ := digChar_facts c hcd
  rw [readVal_succ_def]
  rw [show dropWs (c :: t) = c :: t from by simp [dropWs, w1]]
  split
  · rename_i heq; rw [List.cons.injEq] at heq; exact absurd heq.1 w7
  · rename_i heq; rw [List.cons.injEq] at heq; exact absurd heq.1 w8
  · rename_i heq; rw [List.cons.injEq] at heq; exact absurd heq.1 w9
  · rename_i heq; rw [List.cons.injEq] at heq; exact absurd heq.1 w10
  · rename_i heq; rw [List.cons.injEq] at heq; exact absurd heq.1 w11
  · rename_i heq; rw [List.cons.injEq] at heq; exact absurd heq.1 w12
  · rename_i c2 r2 heq
    rw [List.cons.injEq] at heq
    obtain ⟨rfl, rfl⟩ := heq
    rw [if_pos (Or.inr hcd)]
  · rename_i heq; exact absurd heq (by simp)

/-- One-step unfolding of `readItems` at successor fuel (definitional). -/
theorem readItems_succ_def (f : Nat) (cs : List Char) :
    readItems (f + 1) cs
      = match readVal f cs with
        | some (v, r) =>
          match dropWs r with
          | ',' :: r2 =>
            match readItems f r2 with
            | some (vs, r3) => some (v :: vs, r3)
            | none => none
          | ']' :: r2 => some ([v], r2)
          | _ => none
        | none => none := rfl

/-- One-step unfolding of `readPairs` at successor fuel (definitional). -/
theorem readPairs_succ_def (f : Nat) (cs : List Char) :
    readPairs (f + 1) cs
      = match dropWs cs with
        | '"' :: r =>
          match readStrAux [] r with
          | some (k, r1) =>
            match dropWs r1 with
            | ':' :: r2 =>
              match readVal f r2 with
              | some (v, r3) =>
                match dropWs r3 with
                | ',' :: r4 =>
                  match readPairs f r4 with
                  | some (ps, r5) => some ((k, v) :: ps, r5)
                  | none => none
                | '}' :: r4 => some ([(k, v)], r4)
                | _ => none
              | none => none
            | _ => none
          | none => none
        | _ => none := rfl

/-- The array branch of `readVal` on a rendered nonempty element list reduces
to `readItems` (the element list starts with a value head, never `]`). -/
theorem readVal_arrBranch (f : Nat) (v : JVal) (vs : List JVal) (rest : List Char) :
    readVal (f + 1) ('[' :: (dumpItems (v :: vs) ++ ']' :: rest))
      = (match readItems f (dumpItems (v :: vs) ++ ']' :: rest) with
         | some (es, r3) => some (.arr es, r3)
         | none => none) := by
  obtain ⟨c0, t0, hh, hws0, hbr0, _, _, _⟩ := dumpV_head v
  have hcons : dumpItems (v :: vs) ++ ']' :: rest
      = c0 :: (t0 ++ (dumpItemsTail vs ++ ']' :: rest)) := by
    simp [dumpItems, hh]
  have hdw : dropWs (dumpItems (v :: vs) ++ ']' :: rest)
      = dumpItems (v :: vs) ++ ']' :: rest := by
    rw [show dumpItems (v :: vs) ++ ']' :: rest
        = dumpV v ++ (dumpItemsTail vs ++ ']' :: rest) from by simp [dumpItems]]
    exact dropWs_dumpV v _
  rw [show readVal (f + 1) ('[' :: (dumpItems (v :: vs) ++ ']' :: rest))
      = (match dropWs (dumpItems (v :: vs) ++ ']' :: rest) with
         | [] => none
         | c :: r2 =>
           if c = ']' then some (.arr [], r2)
           else
             match readItems f (c :: r2) with
             | some (es, r3) => some (.arr es, r3)
             | none => none) from rfl]
  rw [hdw, hcons]
  show (if c0 = ']' then some (JVal.arr [], t0 ++ (dumpItemsTail vs ++ ']' :: rest))
        else
          match readItems f (c0 :: (t0 ++ (dumpItemsTail vs ++ ']' :: rest))) with
          | some (es, r3) => some (JVal.arr es, r3)
          | none => none)
      = (match readItems f (c0 :: (t0 ++ (dumpItemsTail vs ++ ']' :: rest))) with
         | some (es, r3) => some (JVal.arr es, r3)
         | none => none)
  rw [if_neg hbr0]

/-- The object branch of `readVal` on a rendered nonempty member list reduces
to `readPairs` (the member list starts with a quoted key, never `}`). -/
theorem readVal_objBranch (f : Nat) (kv : String × JVal) (ps : List (String × JVal))
    (rest : List Char) :
    readVal (f + 1) ('{' :: (dumpPairs (kv :: ps) ++ '}' :: rest))
      = (match readPairs f (dumpPairs (kv :: ps) ++ '}' :: rest) with
         | some (ps2, r3) => some (.obj ps2, r3)
         | none => none) := by
  obtain ⟨k, v⟩ := kv
  have hcons : dumpPairs ((k, v) :: ps) ++ '}' :: rest
      = '"' :: (k.data.flatMap escChar
          ++ ('"' :: (':' :: ' ' :: (dumpV v ++ (dumpPairsTail ps ++ '}' :: rest))))) := by
    simp [dumpPairs, strQuote]
  rw [hcons]
  rfl

/-- The remainder following a rendered object member list cannot extend a
number. -/
theorem numStop_pairsTail (ps : List (String × JVal)) (rest : List Char) :
    numStop (dumpPairsTail ps ++ '}' :: rest) = true := by
  cases ps with
  | nil => rfl
  | cons p ps =>
    obtain ⟨k, v⟩ := p
    rfl

mutual

theorem rtV : ∀ (v : JVal) (f : Nat) (rest : List Char),
    (dumpV v).length < f → numStop rest = true →
    readVal f (dumpV v ++ rest) = some (v, rest)
  | .null, f, rest, hf, _ => by
    cases f with
    | zero => exact absurd hf (by omega)
    | succ f => rfl
  | .bool true, f, rest, hf, _ => by
    cases f with
    | zero => exact absurd hf (by omega)
    | succ f => rfl
  | .bool false, f, rest, hf, _ => by
    cases f with
    | zero => exact absurd hf (by omega)
    | succ f => rfl
  | .num i, f, rest, hf, hr => by
    cases f with
    | zero => exact absurd hf (by omega)
    | succ f =>
      by_cases hi : i < 0
      · rw [show dumpV (.num i) ++ rest = '-' :: (natDigs i.natAbs ++ rest) from by
          simp [dumpV, intChars, hi]]
        rw [show readVal (f + 1) ('-' :: (natDigs i.natAbs ++ rest))
            = (match readNum ('-' :: (natDigs i.natAbs ++ rest)) with
               | some (j, r2) => some (JVal.num j, r2)
               | none => none) from rfl]
        rw [show ('-' :: (natDigs i.natAbs ++ rest)) = intChars i ++ rest from by
          simp [intChars, hi]]
        rw [readNum_intChars i rest hr]
      · obtain ⟨c, t, hnd, hcd⟩ := natDigs_head i.natAbs
        rw [show dumpV (.num i) ++ rest = c :: (t ++ rest) from by
          simp [dumpV, intChars, hi, hnd]]
        rw [readVal_digitStart f c (t ++ rest) hcd]
        rw [show c :: (t ++ rest) = intChars i ++ rest from by
          simp [intChars, hi, hnd]]
        rw [readNum_intChars i rest hr]
  | .str s, f, rest, hf, _ => by
    cases f with
    | zero => exact absurd hf (by omega)
    | succ f =>
      rw [show dumpV (.str s) ++ rest
          = '"' :: (s.data.flatMap escChar ++ ('"' :: rest)) from by
        simp [dumpV, strQuote]]
      rw [show readVal (f + 1) ('"' :: (s.data.flatMap escChar ++ ('"' :: rest)))
          = (match readStrAux [] (s.data.flatMap escChar ++ ('"' :: rest)) with
             | some (s2, r2) => some (JVal.str s2, r2)
             | none => none) from rfl]
      rw [readStr_strQuote]
  | .arr [], f, rest, hf, _ => by
    cases f with
    | zero => exact absurd hf (by omega)
    | succ f =>
      rw [show dumpV (.arr []) ++ rest = '[' :: ']' :: rest from by
        simp [dumpV, dumpItems]]
      rfl
  | .arr (v :: vs), f, rest, hf, _ => by
    cases f with
    | zero => exact absurd hf (by omega)
    | succ f =>
      rw [show dumpV (.arr (v :: vs)) ++ rest
          = '[' :: (dumpItems (v :: vs) ++ ']' :: rest) from by simp [dumpV]]
      rw [readVal_arrBranch f v vs rest]
      have hlen : (dumpV (.arr (v :: vs))).length = (dumpItems (v :: vs)).length + 2 := by
        simp [dumpV]
      rw [rtItems v vs f rest (by omega)]
  | .obj [], f, rest, hf, _ => by
    cases f with
    | zero => exact absurd hf (by omega)
    | succ f =>
      rw [show dumpV (.obj []) ++ rest = '{' :: '}' :: rest from by
        simp [dumpV, dumpPairs]]
      rfl
  | .obj (kv :: ps), f, rest, hf, _ => by
    cases f with
    | zero => exact absurd hf (by omega)
    | succ f =>
      rw [show dumpV (.obj (kv :: ps)) ++ rest
          = '{' :: (dumpPairs (kv :: ps) ++ '}' :: rest) from by simp [dumpV]]
      rw [readVal_objBranch f kv ps rest]
      have hlen : (dumpV (.obj (kv :: ps))).length = (dumpPairs (kv :: ps)).length + 2 := by
        simp [dumpV]
      rw [rtPairs kv ps f rest (by omega)]
termination_by v _ _ _ _ => sizeOf v
decreasing_by all_goals (subst_vars; (try simp); (try omega))

theorem rtItems : ∀ (v : JVal) (vs : List JVal) (f : Nat) (rest : List Char),
    (dumpItems (v :: vs)).length + 1 < f →
    readItems f (dumpItems (v :: vs) ++ ']' :: rest) = some (v :: vs, rest)
  | v, [], f, rest, hf => by
    cases f with
    | zero => exact absurd hf (by omega)
    | succ f =>
      have hlen : (dumpItems (v :: [])).length = (dumpV v).length := by
        simp [dumpItems, dumpItemsTail]
      have hv := rtV v f (']' :: rest) (by omega) rfl
      rw [readItems_succ_def]
      rw [show dumpItems (v :: []) ++ ']' :: rest = dumpV v ++ (']' :: rest) from by
        simp [dumpItems, dumpItemsTail]]
      rw [hv]
      rfl
  | v, x :: xs, f, rest, hf => by
    cases f with
    | zero => exact absurd hf (by omega)
    | succ f =>
      have harg : dumpItems (v :: x :: xs) ++ ']' :: rest
          = dumpV v ++ (',' :: ' ' :: (dumpItems (x :: xs) ++ ']' :: rest)) := by
        simp [dumpItems, dumpItemsTail]
      have hlen : (dumpItems (v :: x :: xs)).length
          = (dumpV v).length + 2 + (dumpItems (x :: xs)).length := by
        simp [dumpItems, dumpItemsTail]
        omega
      have hvpos := dumpV_length_pos v
      have hxpos := dumpV_length_pos x
      have hxlen : (dumpV x).length ≤ (dumpItems (x :: xs)).length := by
        simp [dumpItems]
      have hv := rtV v f (',' :: ' ' :: (dumpItems (x :: xs) ++ ']' :: rest))
        (by omega) rfl
      rw [readItems_succ_def, harg, hv]
      show (match readItems f (' ' :: (dumpItems (x :: xs) ++ ']' :: rest)) with
            | some (vs2, r3) => some (v :: vs2, r3)
            | none => none) = some (v :: x :: xs, rest)
      rw [readItems_ws f ' ' _ (by decide), rtItems x xs f rest (by omega)]
termination_by v vs _ _ _ => sizeOf v + sizeOf vs
decreasing_by all_goals (subst_vars; (try simp); (try omega))

theorem rtPairs : ∀ (kv : String × JVal) (ps : List (String × JVal)) (f : Nat)
    (rest : List Char),
    (dumpPairs (kv :: ps)).length + 1 < f →
    readPairs f (dumpPairs (kv :: ps) ++ '}' :: rest) = some (kv :: ps, rest)
  | (k, v), [], f, rest, hf => by
    cases f with
    | zero => exact absurd hf (by omega)
    | succ f =>
      have hcons : dumpPairs ((k, v) :: ([] : List (String × JVal))) ++ '}' :: rest
          = '"' :: (k.data.flatMap escChar
              ++ ('"' :: (':' :: ' ' :: (dumpV v ++ ('}' :: rest))))) := by
        simp [dumpPairs, dumpPairsTail, strQuote]
      have hlen : (dumpPairs ((k, v) :: ([] : List (String × JVal)))).length
          = (k.data.flatMap escChar).length + 4 + (dumpV v).length := by
        simp [dumpPairs, dumpPairsTail, strQuote]
        omega
      rw [readPairs_succ_def, hcons]
      show (match readStrAux [] (k.data.flatMap escChar
              ++ ('"' :: (':' :: ' ' :: (dumpV v ++ ('}' :: rest))))) with
            | some (k2, r1) =>
              match dropWs r1 with
              | ':' :: r2 =>
                match readVal f r2 with
                | some (v2, r3) =>
                  match dropWs r3 with
                  | ',' :: r4 =>
                    match readPairs f r4 with
                    | some (ps2, r5) => some ((k2, v2) :: ps2, r5)
                    | none => none
                  | '}' :: r4 => some ([(k2, v2)], r4)
                  | _ => none
                | none => none
              | _ => none
            | none => none) = some ([(k, v)], rest)
      rw [readStr_strQuote]
      show (match readVal f (' ' :: (dumpV v ++ ('}' :: rest))) with
            | some (v2, r3) =>
              match dropWs r3 with
              | ',' :: r4 =>
                match readPairs f r4 with
                | some (ps2, r5) => some ((k, v2) :: ps2, r5)
                | none => none
              | '}' :: r4 => some ([(k, v2)], r4)
              | _ => none
            | none => none) = some ([(k, v)], rest)
      rw [readVal_ws f ' ' _ (by decide)]
      rw [rtV v f ('}' :: rest) (by omega) rfl]
      rfl
  | (k, v), (k2, v2) :: ps2, f, rest, hf => by
    cases f with
    | zero => exact absurd hf (by omega)
    | succ f =>
      have hcons : dumpPairs ((k, v) :: (k2, v2) :: ps2) ++ '}' :: rest
          = '"' :: (k.data.flatMap escChar
              ++ ('"' :: (':' :: ' ' :: (dumpV v
                  ++ (dumpPairsTail ((k2, v2) :: ps2) ++ '}' :: rest))))) := by
        simp [dumpPairs, strQuote]
      have hlen : (dumpPairs ((k, v) :: (k2, v2) :: ps2)).length
          = (k.data.flatMap escChar).length + 4 + (dumpV v).length
              + (dumpPairsTail ((k2, v2) :: ps2)).length := by
        simp [dumpPairs, strQuote]
        omega
      have hvpos := dumpV_length_pos v
      rw [readPairs_succ_def, hcons]
      show (match readStrAux [] (k.data.flatMap escChar
              ++ ('"' :: (':' :: ' ' :: (dumpV v
                  ++ (dumpPairsTail ((k2, v2) :: ps2) ++ '}' :: rest))))) with
            | some (k3, r1) =>
              match dropWs r1 with
              | ':' :: r2 =>
                match readVal f r2 with
                | some (v3, r3) =>
                  match dropWs r3 with
                  | ',' :: r4 =>
                    match readPairs f r4 with
                    | some (ps3, r5) => some ((k3, v3) :: ps3, r5)
                    | none => none
                  | '}' :: r4 => some ([(k3, v3)], r4)
                  | _ => none
                | none => none
              | _ => none
            | none => none) = some ((k, v) :: (k2, v2) :: ps2, rest)
      rw [readStr_strQuote]
      show (match readVal f (' ' :: (dumpV v
              ++ (dumpPairsTail ((k2, v2) :: ps2) ++ '}' :: rest))) with
            | some (v3, r3) =>
              match dropWs r3 with
              | ',' :: r4 =>
                match readPairs f r4 with
                | some (ps3, r5) => some ((k, v3) :: ps3, r5)
                | none => none
              | '}' :: r4 => some ([(k, v3)], r4)
              | _ => none
            | none => none) = some ((k, v) :: (k2, v2) :: ps2, rest)
      rw [readVal_ws f ' ' _ (by decide)]
      rw [rtV v f (dumpPairsTail ((k2, v2) :: ps2) ++ '}' :: rest) (by omega)
        (numStop_pairsTail ((k2, v2) :: ps2) rest)]
      have htail : dumpPairsTail ((k2, v2) :: ps2) ++ '}' :: rest
          = ',' :: ' ' :: (dumpPairs ((k2, v2) :: ps2) ++ '}' :: rest) := by
        simp [dumpPairsTail, dumpPairs]
      have hlen2 : (dumpPairs ((k2, v2) :: ps2)).length
          ≤ (dumpPairsTail ((k2, v2) :: ps2)).length := by
        simp [dumpPairsTail, dumpPairs]
        omega
      show (match dropWs (dumpPairsTail ((k2, v2) :: ps2) ++ '}' :: rest) with
            | ',' :: r4 =>
              match readPairs f r4 with
              | some (ps3, r5) => some ((k, v) :: ps3, r5)
              | none => none
            | '}' :: r4 => some ([(k, v)], r4)
            | _ => none) = some ((k, v) :: (k2, v2) :: ps2, rest)
      rw [htail]
      show (match readPairs f (' ' :: (dumpPairs ((k2, v2) :: ps2) ++ '}' :: rest)) with
            | some (ps3, r5) => some ((k, v) :: ps3, r5)
            | none => none) = some ((k, v) :: (k2, v2) :: ps2, rest)
      rw [readPairs_ws f ' ' _ (by decide)]
      rw [rtPairs (k2, v2) ps2 f rest (by omega)]
termination_by kv ps _ _ _ => sizeOf kv + sizeOf ps
decreasing_by all_goals (subst_vars; (try simp); (try omega))

end

/-- The codec round-trip: what `json.dump` writes, `json.load` reads back as
an equal value. -/
theorem pyLoads_pyDumps (v : JVal) : pyLoads (pyDumps v) = some v := by
  have hv := rtV v ((dumpV v).length + 1) [] (by omega) rfl
  rw [List.append_nil] at hv
  show (match readVal ((dumpV v).length + 1) (dumpV v) with
        | some (w, r) => if dropWs r = [] then some w else none
        | none => none) = some v
  rw [hv]
  rfl

/-! ## The response cache

`_save_to_cache` and `_load_file_from_cache` from the source, over a
filesystem modelled as a partial map from path to file content.  The module
computes `CACHE_DIR = Path("DEFAULT_CACHE_DIR")` (the constant's *name*, a
bug the claims do not depend on since both functions use the same directory),
and each key's file is `CACHE_DIR / f"{body}.json"`. -/

/-- The first `k` characters of a string (the prefix an interrupted write
leaves behind). -/
def strTake (s : String) (k : Nat) : String := ⟨s.data.take k⟩

/-- A filesystem: full content of each existing file, by path. -/
def FS : Type := String → Option String

/-- An empty cache directory. -/
def emptyFS : FS := fun _ => none

/-- The path of a cache entry, as the source computes it. -/
def cacheFileName (body : String) : String :=
  "DEFAULT_CACHE_DIR/" ++ body ++ ".json"

/-- Errors the cache helpers can raise. -/
inductive CacheErr where
  | jsonDecodeError
  deriving DecidableEq, Repr

/-- Embedding of `_load_file_from_cache`: if the cache file exists, parse it
with `json.load` (raising `json.JSONDecodeError` on unparsable content),
else return `None`. -/
def loadFileFromCache (fs : FS) (body : String) : Except CacheErr (Option JVal) :=
  match fs (cacheFileName body) with
  | none => .ok none
  | some content =>
    match pyLoads content with
    | some v => .ok (some v)
    | none => .error .jsonDecodeError

/-- Embedding of `_save_to_cache`: open the cache file for writing
(truncating it) and write `json.dump(data)`; the completed write leaves the
full serialization. -/
def saveToCache (fs : FS) (body : String) (data : JVal) : FS :=
  fun p => if p = cacheFileName body then some (pyDumps data) else fs p

/-- A `_save_to_cache` call interrupted mid-write: `open(..., "w")` has
truncated the file and only the first `k` characters of the serialization
have reached it. -/
def saveToCacheInterrupted (fs : FS) (body : String) (data : JVal) (k : Nat) : FS :=
  fun p => if p = cacheFileName body then some (strTake (pyDumps data) k) else fs p

/-- Run a list of `put` operations left to right. -/
def applyPuts (fs : FS) (ops : List (String × JVal)) : FS :=
  ops.foldl (fun acc op => saveToCache acc op.1 op.2) fs

theorem cacheFileName_inj (a b : String) (h : cacheFileName a = cacheFileName b) :
    a = b := by
  unfold cacheFileName at h
  have hd := congrArg String.data h
  simp only [String.data_append] at hd
  rw [List.append_assoc, List.append_assoc] at hd
  have h2 := List.append_cancel_left hd
  have h3 := List.append_cancel_right h2
  exact String.ext h3

theorem load_after_save (fs : FS) (key : String) (doc : JVal) :
    loadFileFromCache (saveToCache fs key doc) key = .ok (some doc) := by
  unfold loadFileFromCache saveToCache
  show (match (if cacheFileName key = cacheFileName key
               then some (pyDumps doc) else fs (cacheFileName key)) with
        | none => Except.ok none
        | some content =>
          match pyLoads content with
          | some v => Except.ok (some v)
          | none => Except.error CacheErr.jsonDecodeError)
      = Except.ok (some doc)
  rw [if_pos rfl]
  show (match pyLoads (pyDumps doc) with
        | some v => Except.ok (some v)
        | none => Except.error CacheErr.jsonDecodeError)
      = Except.ok (some doc)
  rw [pyLoads_pyDumps]

/-- C2: a `put(key, doc)` followed by `get(key)` in the same process returns
a document equal to `doc`, for every key and every document: the cache file
then holds `json.dump(doc)`, and `json.load` parses it back to an equal
value (the codec round-trip `pyLoads_pyDumps`). -/
theorem claim_C2_cachePutGet (fs : FS) (key : String) (doc : JVal) :
    loadFileFromCache (saveToCache fs key doc) key = .ok (some doc) :=
  load_after_save fs key doc

theorem applyPuts_miss (key : String) : ∀ (ops : List (String × JVal)) (fs : FS),
    (∀ p ∈ ops, p.1 ≠ key) → fs (cacheFileName key) = none →
    applyPuts fs ops (cacheFileName key) = none := by
  intro ops
  induction ops with
  | nil => intro fs _ hfs; exact hfs
  | cons op rest ih =>
    intro fs h hfs
    have hne : op.1 ≠ key := h op (List.mem_cons_self op rest)
    have hstep : saveToCache fs op.1 op.2 (cacheFileName key) = none := by
      unfold saveToCache
      rw [if_neg (fun he => hne (cacheFileName_inj op.1 key he.symm))]
      exact hfs
    exact ih (saveToCache fs op.1 op.2)
      (fun p hp => h p (List.mem_cons_of_mem op hp)) hstep

/-- C9: `get` on a key never written returns an absent result and never
raises: starting from an empty cache directory, after any sequence of puts
on other keys the file for this key still does not exist, so
`_load_file_from_cache` takes the `else` branch and returns `None`. -/
theorem claim_C9_cacheMiss (ops : List (String × JVal)) (key : String)
    (h : ∀ p ∈ ops, p.1 ≠ key) :
    loadFileFromCache (applyPuts emptyFS ops) key = .ok none := by
  have habs := applyPuts_miss key ops emptyFS h rfl
  unfold loadFileFromCache
  rw [habs]

theorem claim_C9_cacheMiss_witness :
    (∀ p ∈ [(("other" : String), JVal.null)], p.1 ≠ ("key" : String)) ∧
    loadFileFromCache (applyPuts emptyFS [(("other" : String), JVal.null)]) ("key")
      = .ok none :=
  ⟨by decide, claim_C9_cacheMiss _ _ (by decide)⟩

/-- C10: when the cache file exists but its content is not parseable JSON,
`_load_file_from_cache` raises `json.JSONDecodeError` rather than returning
`None` or the raw content (`json.load` is not guarded). -/
theorem claim_C10_cacheCorruptEntry (fs : FS) (key content : String)
    (hfile : fs (cacheFileName key) = some content)
    (hbad : pyLoads content = none) :
    loadFileFromCache fs key = .error .jsonDecodeError := by
  unfold loadFileFromCache
  rw [hfile]
  show (match pyLoads content with
        | some v => Except.ok (some v)
        | none => Except.error CacheErr.jsonDecodeError)
      = Except.error CacheErr.jsonDecodeError
  rw [hbad]

theorem claim_C10_cacheCorruptEntry_witness :
    (fun p => if p = cacheFileName ("k") then some ("\x7b") else none) (cacheFileName ("k"))
      = some ("\x7b") ∧
    pyLoads ("\x7b") = none ∧
    loadFileFromCache (fun p => if p = cacheFileName ("k") then some ("\x7b") else none) ("k")
      = .error .jsonDecodeError :=
  ⟨by simp, rfl,
   claim_C10_cacheCorruptEntry
     (fun p => if p = cacheFileName ("k") then some ("\x7b") else none)
     ("k") ("\x7b") (by simp) rfl⟩

/-- C6 is refuted: `_save_to_cache` writes the serialization directly into
the cache file (truncate-then-write, no temp-file-and-rename), so a put
interrupted after one character leaves the unparsable content `{` and a
subsequent get raises a JSON decode error. -/
theorem claim_C6_counterexample :
    saveToCacheInterrupted emptyFS ("k") (JVal.obj [(("a" : String), JVal.null)]) 1
        (cacheFileName ("k"))
      = some ("\x7b") ∧
    loadFileFromCache
        (saveToCacheInterrupted emptyFS ("k") (JVal.obj [(("a" : String), JVal.null)]) 1)
        ("k")
      = .error .jsonDecodeError := by
  constructor
  · show (if cacheFileName ("k") = cacheFileName ("k")
          then some ((pyDumps (JVal.obj [(("a" : String), JVal.null)])).take 1)
          else emptyFS (cacheFileName ("k")))
        = some ("\x7b")
    rw [if_pos rfl]
    rfl
  · rfl

/-- C6 (amended): a put interrupted mid-write leaves exactly the first `k`
characters of the serialized document visible to readers (the write is a
direct truncate-then-write, not an atomic temp-write-then-rename); an
uninterrupted put leaves `get` returning the new document, but there are
interruption points after which `get(key)` fails with a JSON decode error. -/
theorem claim_C6_interruptedPut (fs : FS) (key : String) (data : JVal) (k : Nat) :
    saveToCacheInterrupted fs key data k (cacheFileName key)
      = some (strTake (pyDumps data) k) ∧
    loadFileFromCache (saveToCache fs key data) key = .ok (some data) ∧
    ∃ data2 k2,
      loadFileFromCache (saveToCacheInterrupted fs key data2 k2) key
        = .error .jsonDecodeError := by
  refine ⟨?_, load_after_save fs key data, ?_⟩
  · show (if cacheFileName key = cacheFileName key
          then some (strTake (pyDumps data) k) else fs (cacheFileName key))
        = some (strTake (pyDumps data) k)
    rw [if_pos rfl]
  · refine ⟨JVal.obj [(("a" : String), JVal.null)], 1, ?_⟩
    unfold loadFileFromCache saveToCacheInterrupted
    show (match (if cacheFileName key = cacheFileName key
                 then some (strTake (pyDumps (JVal.obj [(("a" : String), JVal.null)])) 1)
                 else fs (cacheFileName key)) with
          | none => Except.ok none
          | some content =>
            match pyLoads content with
            | some v => Except.ok (some v)
            | none => Except.error CacheErr.jsonDecodeError)
        = Except.error CacheErr.jsonDecodeError
    rw [if_pos rfl]
    rfl

/-! ## The authenticated fetcher

The body of `_fetch_json_payload` is an empty stub (`pass`) in the source;
the definitions below are modelled from the spec (section 4.4) against the
configuration constants the source does define (`MAX_RETRIES = 3`). -/

/-- `MAX_RETRIES` from the source. -/
def MAX_RETRIES : Nat := 3

/-- One observed transport outcome: an HTTP response, or a transport-level
failure (timeout, connection error). -/
inductive TransportResult where
  | http (status : Nat) (body : String)
  | transportError
  deriving Repr

/-- Fetch failures, named as the spec's error taxonomy names them. -/
inductive FetchErr where
  | authExpiredError
  | fetchExhaustedError
  | malformedResponseError
  | httpError (status : Nat)
  deriving DecidableEq, Repr

/-- Modelled from the spec: the retry loop of `_fetch_json_payload`, whose
body is missing from the source.  `transport n` is the response to the
`n`-th network call.  Per spec section 4.4: a 401/403 fails immediately with
`AuthExpiredError`; a 5xx/429 or transport-level failure retries; a 2xx body
is parsed as JSON (`MalformedResponseError` if unparsable); exhausting the
attempt budget yields `FetchExhaustedError`.  Other 4xx statuses are not
given a retry policy by the spec and are modelled as an immediate
non-retryable `httpError`.  Returns the outcome and the number of transport
calls performed. -/
def fetchAttempts (transport : Nat → TransportResult) (made : Nat) :
    Nat → Except FetchErr JVal × Nat
  | 0 => (.error .fetchExhaustedError, made)
  | n + 1 =>
    match transport made with
    | .transportError => fetchAttempts transport (made + 1) n
    | .http st body =>
      if st = 401 ∨ st = 403 then (.error .authExpiredError, made + 1)
      else if 500 ≤ st ∨ st = 429 then fetchAttempts transport (made + 1) n
      else if 200 ≤ st ∧ st < 300 then
        match pyLoads body with
        | some v => (.ok v, made + 1)
        | none => (.error .malformedResponseError, made + 1)
      else (.error (.httpError st), made + 1)

/-- Modelled from the spec: `_fetch_json_payload` with caching.  When the
caller opts into caching and the resolved key has a stored document, return
it with no network call; otherwise run the retry loop and, on success,
write the document through to the cache (spec section 4.4). -/
def fetchJsonPayload (useCache : Bool) (cacheKey : String)
    (transport : Nat → TransportResult) (fs : FS) :
    (Except FetchErr JVal × Nat) × FS :=
  match useCache, loadFileFromCache fs cacheKey with
  | true, .ok (some doc) => ((.ok doc, 0), fs)
  | _, _ =>
    match fetchAttempts transport 0 MAX_RETRIES with
    | (.ok v, n) => ((.ok v, n), if useCache then saveToCache fs cacheKey v else fs)
    | (res, n) => ((res, n), fs)

/-- C3: a transport whose first response is a 401 or 403 makes the fetch
fail with `AuthExpiredError` after exactly one transport call, with no
retries (and the cache untouched). -/
theorem claim_C3_authExpiredNoRetry (transport : Nat → TransportResult)
    (cacheKey : String) (fs : FS) (st : Nat) (body : String)
    (hresp : transport 0 = .http st body) (hst : st = 401 ∨ st = 403) :
    fetchJsonPayload false cacheKey transport fs
      = ((.error .authExpiredError, 1), fs) := by
  have hrun : fetchAttempts transport 0 MAX_RETRIES
      = (.error .authExpiredError, 1) := by
    show (match transport 0 with
          | .transportError => fetchAttempts transport 1 2
          | .http st body =>
            if st = 401 ∨ st = 403 then (.error .authExpiredError, 1)
            else if 500 ≤ st ∨ st = 429 then fetchAttempts transport 1 2
            else if 200 ≤ st ∧ st < 300 then
              match pyLoads body with
              | some v => (.ok v, 1)
              | none => (.error .malformedResponseError, 1)
            else (.error (.httpError st), 1))
        = (.error .authExpiredError, 1)
    rw [hresp]
    show (if st = 401 ∨ st = 403 then ((.error .authExpiredError, 1) : Except FetchErr JVal × Nat)
          else if 500 ≤ st ∨ st = 429 then fetchAttempts transport 1 2
          else if 200 ≤ st ∧ st < 300 then
            match pyLoads body with
            | some v => (.ok v, 1)
            | none => (.error .malformedResponseError, 1)
          else (.error (.httpError st), 1))
        = (.error .authExpiredError, 1)
    rw [if_pos hst]
  show (match fetchAttempts transport 0 MAX_RETRIES with
        | (.ok v, n) => ((Except.ok v, n), if false then saveToCache fs cacheKey v else fs)
        | (res, n) => ((res, n), fs))
      = ((.error .authExpiredError, 1), fs)
  rw [hrun]

theorem claim_C3_authExpiredNoRetry_witness :
    ((fun _ => TransportResult.http 401 ("")) 0 : TransportResult) = .http 401 ("") ∧
    ((401 : Nat) = 401 ∨ (401 : Nat) = 403) ∧
    fetchJsonPayload false ("key") (fun _ => TransportResult.http 401 ("")) emptyFS
      = ((.error .authExpiredError, 1), emptyFS) :=
  ⟨rfl, Or.inl rfl,
   claim_C3_authExpiredNoRetry (fun _ => TransportResult.http 401 (""))
     ("key") emptyFS 401 ("") rfl (Or.inl rfl)⟩

/-- C4: with caching enabled and a stored document under the resolved key,
the fetch returns the cached document with zero network calls and leaves
the cache unchanged. -/
theorem claim_C4_cacheHitNoNetwork (transport : Nat → TransportResult)
    (cacheKey : String) (fs : FS) (doc : JVal)
    (hhit : loadFileFromCache fs cacheKey = .ok (some doc)) :
    fetchJsonPayload true cacheKey transport fs = ((.ok doc, 0), fs) := by
  unfold fetchJsonPayload
  rw [hhit]

theorem claim_C4_cacheHitNoNetwork_witness :
    loadFileFromCache (saveToCache emptyFS ("key") (JVal.num 7)) ("key")
      = .ok (some (JVal.num 7)) ∧
    fetchJsonPayload true ("key") (fun _ => TransportResult.transportError)
        (saveToCache emptyFS ("key") (JVal.num 7))
      = ((.ok (JVal.num 7), 0), saveToCache emptyFS ("key") (JVal.num 7)) :=
  ⟨by rfl,
   claim_C4_cacheHitNoNetwork (fun _ => TransportResult.transportError)
     ("key") (saveToCache emptyFS ("key") (JVal.num 7)) (JVal.num 7) (by rfl)⟩

/-! ## Token capture

`TokenCapture.handle_request` from the source, over a request model carrying
the two pieces of metadata the observer reads.  The two helper bodies that
are `pass` stubs in the source (`_get_auth_header`, `_is_valid_bearer_token`)
are modelled from the spec and marked as such. -/

/-- The `api_base` entry of the source's `API_BASE` table. -/
def apiBase : String := "api09.horseracing.software"

/-- Observed request metadata: destination URL and authorization header,
each possibly absent. -/
structure PwRequest where
  url : Option String
  authorizationHeader : Option String
  deriving DecidableEq, Repr

/-- The `TokenCapture` instance state: the configured domain and the latch. -/
structure TokenCaptureState where
  targetDomain : String
  capturedToken : Option String
  deriving DecidableEq, Repr

/-- Python truthiness of an optional string (`None` and `""` are falsy). -/
def pyTruthyOptStr : Option String → Bool
  | none => false
  | some s => !(s == "")

/-- Whether `n` is a prefix of `h`. -/
def listStarts : List Char → List Char → Bool
  | [], _ => true
  | _ :: _, [] => false
  | a :: n, b :: h => a == b && listStarts n h

/-- Whether `n` occurs as a contiguous run inside `h` (Python's `in` on
strings). -/
def listIn : List Char → List Char → Bool
  | n, [] => listStarts n []
  | n, c :: t => listStarts n (c :: t) || listIn n t

/-- Python's `needle in hay` for strings. -/
def pyIn (needle hay : String) : Bool := listIn needle.data hay.data

/-- Embedding of `_get_request_url`: `getattr(request, "url", None)`. -/
def getRequestUrl (r : PwRequest) : Option String := r.url

/-- Modelled from the spec: `_get_auth_header` has an empty stub body
(`pass`) in the source; per the spec the observer reads the request's
authorization header. -/
def getAuthHeader (r : PwRequest) : Option String := r.authorizationHeader

/-- Modelled from the spec: `_is_valid_bearer_token` has an empty stub body
(`pass`) in the source; per the spec a well-formed bearer token is
scheme-prefixed with a non-empty token after the scheme. -/
def isValidBearerToken (h : String) : Bool :=
  listStarts ("Bearer ").data h.data && decide (7 < h.data.length)

/-- Embedding of `TokenCapture.handle_request`: once a (truthy) token is
latched, do nothing; otherwise require a truthy URL that CONTAINS the target
domain as a substring (the source's `self.target_domain not in url` check),
a truthy authorization header, and bearer validity, then latch the header. -/
def handleRequest (st : TokenCaptureState) (r : PwRequest) : TokenCaptureState :=
  if pyTruthyOptStr st.capturedToken then st
  else
    match getRequestUrl r with
    | none => st
    | some url =>
      if url == "" then st
      else if !(pyIn st.targetDomain url) then st
      else
        match getAuthHeader r with
        | none => st
        | some h =>
          if h == "" then st
          else if isValidBearerToken h then { st with capturedToken := some h }
          else st

/-- Feed every observed request to the handler, in order, and read the
latched token (`TokenCapture(domain)` then `get_token()`). -/
def runCapture (domain : String) (reqs : List PwRequest) : Option String :=
  (reqs.foldl handleRequest ⟨domain, none⟩).capturedToken

/-- The predicate the source's code actually latches on. -/
def codeMatch (domain : String) (r : PwRequest) : Bool :=
  (match r.url with
   | some u => !(u == "") && pyIn domain u
   | none => false)
  && (match r.authorizationHeader with
      | some h => !(h == "") && isValidBearerToken h
      | none => false)

/-- Claim-side definition, from the spec's words: the host component of a
URL (the run after `://` up to the first `/`, `:`, `?` or `#`). -/
def hostTail : List Char → Option (List Char)
  | ':' :: '/' :: '/' :: t => some t
  | _ :: t => hostTail t
  | [] => none

/-- Claim-side definition, from the spec's words: the destination host of a
URL string, when it has one. -/
def hostOf (u : String) : Option String :=
  match hostTail u.data with
  | some t => some ⟨t.takeWhile (fun c => !(c == '/' || c == ':' || c == '?' || c == '#'))⟩
  | none => none

theorem codeMatch_auth (domain : String) (r : PwRequest)
    (h : codeMatch domain r = true) :
    ∃ tok, getAuthHeader r = some tok ∧ tok ≠ "" ∧ isValidBearerToken tok = true := by
  unfold codeMatch at h
  rw [Bool.and_eq_true] at h
  obtain ⟨_, h2⟩ := h
  cases ha : r.authorizationHeader with
  | none => rw [ha] at h2; exact absurd h2 (by simp)
  | some tok =>
    rw [ha] at h2
    rw [Bool.and_eq_true] at h2
    refine ⟨tok, ha, ?_, h2.2⟩
    intro he
    subst he
    simp at h2

theorem handleRequest_step (st : TokenCaptureState) (r : PwRequest)
    (hst : st.capturedToken = none) :
    handleRequest st r
      = if codeMatch st.targetDomain r
        then { st with capturedToken := getAuthHeader r }
        else st := by
  unfold handleRequest codeMatch getRequestUrl getAuthHeader
  rw [hst]
  show (match r.url with
        | none => st
        | some url =>
          if url == "" then st
          else if !(pyIn st.targetDomain url) then st
          else
            match r.authorizationHeader with
            | none => st
            | some h =>
              if h == "" then st
              else if isValidBearerToken h then { st with capturedToken := some h }
              else st)
      = _
  cases hu : r.url with
  | none => simp
  | some u =>
    by_cases hue : (u == "") = true
    · simp [hue]
    · rw [Bool.not_eq_true] at hue
      by_cases hin : pyIn st.targetDomain u = true
      · cases ha : r.authorizationHeader with
        | none => simp [hue, hin]
        | some h =>
          by_cases hhe : (h == "") = true
          · simp [hue, hin, hhe]
          · rw [Bool.not_eq_true] at hhe
            by_cases hv : isValidBearerToken h = true
            · simp [hue, hin, hhe, hv]
            · rw [Bool.not_eq_true] at hv
              simp [hue, hin, hhe, hv]
      · rw [Bool.not_eq_true] at hin
        simp [hue, hin]

theorem foldCapture_latched (reqs : List PwRequest) : ∀ (st : TokenCaptureState)
    (t : String), st.capturedToken = some t → t ≠ "" →
    (reqs.foldl handleRequest st).capturedToken = some t := by
  induction reqs with
  | nil => intro st t hst _; exact hst
  | cons r rest ih =>
    intro st t hst hne
    have hkeep : handleRequest st r = st := by
      unfold handleRequest
      rw [hst]
      rw [show pyTruthyOptStr (some t) = !(t == "") from rfl]
      rw [if_pos (by simp [hne])]
    rw [List.foldl_cons, hkeep]
    exact ih st t hst hne

theorem foldCapture_open (reqs : List PwRequest) : ∀ (st : TokenCaptureState),
    st.capturedToken = none →
    (reqs.foldl handleRequest st).capturedToken
      = (reqs.find? (codeMatch st.targetDomain)).bind getAuthHeader := by
  induction reqs with
  | nil => intro st hst; exact hst
  | cons r rest ih =>
    intro st hst
    rw [List.foldl_cons, handleRequest_step st r hst]
    by_cases hm : codeMatch st.targetDomain r = true
    · rw [if_pos hm, List.find?_cons_of_pos _ hm]
      obtain ⟨tok, hga, hne, _⟩ := codeMatch_auth _ _ hm
      have := foldCapture_latched rest { st with capturedToken := getAuthHeader r } tok
        (by simp [hga]) hne
      rw [this]
      show some tok = getAuthHeader r
      rw [hga]
    · rw [if_neg hm, List.find?_cons_of_neg _ (by simp [hm]), ih st hst]

/-- C5 is refuted: the source latches on substring containment of the
configured domain in the whole URL (`self.target_domain not in url`), not on
the destination host.  In this stream the first request's host is
`evil.example`, not the API domain, but its query string contains the domain
text, so the capturer latches its token `Bearer AAA`; the first request
whose destination HOST matches the API domain carries `Bearer BBB`, and the
claim would require that token to be the captured one. -/
theorem claim_C5_counterexample :
    hostOf ("https://evil.example/?d=api09.horseracing.software")
      ≠ some apiBase ∧
    hostOf ("https://api09.horseracing.software/bha/v1/fixtures/")
      = some apiBase ∧
    isValidBearerToken ("Bearer BBB") = true ∧
    runCapture apiBase
      [⟨some ("https://evil.example/?d=api09.horseracing.software"), some ("Bearer AAA")⟩,
       ⟨some ("https://api09.horseracing.software/bha/v1/fixtures/"), some ("Bearer BBB")⟩]
      = some ("Bearer AAA") ∧
    (("Bearer AAA" : String) ≠ ("Bearer BBB" : String)) := by
  refine ⟨by decide, rfl, rfl, rfl, by decide⟩

/-- C5 (amended): the capturer latches the authorization header of the FIRST
request whose URL is truthy and contains the configured domain as a
substring and whose authorization header is a truthy well-formed bearer
token; every later request is ignored, and with no such request nothing is
captured. -/
theorem claim_C5_tokenCapture (domain : String) (reqs : List PwRequest) :
    runCapture domain reqs = (reqs.find? (codeMatch domain)).bind getAuthHeader := by
  unfold runCapture
  exact foldCapture_open reqs ⟨domain, none⟩ rfl
